import Mathlib

/-!
# Fixture generators of Command-Line_Rust: `fortuner/mk-out.go` and `calr/mk-outs.go`

A shallow embedding of the two Go programs that regenerate the golden files
under `tests/expected`, together with the file-system and process facts they
rely on.

Modelling conventions
* A path is the list of its segments; `[]` is the directory every path is
  resolved from (the root for the absolute paths of `fortuner`, the current
  directory for the relative paths of `calr`); it always exists.
* The file system is a finite table from paths to nodes.  Path resolution
  walks the ancestors, so `ENOENT` and `ENOTDIR` arise as in the kernel.
  Access is never denied: permission failures (`EACCES`) are outside the model,
  and the `perm` of a directory is the mode passed to `mkdir`, before umask.
* `log.Fatal` is `os.Exit(1)`: the process stops at once, deferred calls do
  not run and other goroutines stop where they are.
* The external programs (`fortune`, `ccal`) are a parameter `exec`; they only
  write to the streams they are given.
* `filepath.Glob(dir + "/*")` lists the children of `dir`; `*` also matches
  names that begin with a dot.  The directory part of the pattern is taken
  literally (no glob metacharacter in the working directory).
-/

namespace FixtureGen

/-! ## File system -/

/-- A path, as the list of its segments. -/
abbrev PathName := List String

/-- The error numbers the model distinguishes. -/
inductive Errno where
  | ENOENT
  | ENOTDIR
  | EEXIST
  | EISDIR
  deriving DecidableEq, Repr

/-- A regular file with its bytes, or a directory with its mode. -/
inductive Node where
  | file (content : List Nat)
  | dir (perm : Nat)
  deriving DecidableEq, Repr

/-- The file system: a table from paths to nodes. -/
abbrev FS := List (PathName × Node)

/-- First entry of the table stored under `p`. -/
def lookupNode : FS → PathName → Option Node
  | [], _ => none
  | (q, n) :: rest, p => if q = p then some n else lookupNode rest p

/-- Node at `p`; the base directory `[]` always exists. -/
def nodeAt (fs : FS) (p : PathName) : Option Node :=
  match p with
  | [] => some (Node.dir 0o755)
  | _ :: _ => lookupNode fs p

/-- Resolve the segments `rest` below `pre`: each one must be a directory. -/
def walk (fs : FS) : PathName → PathName → Except Errno Unit
  | _, [] => .ok ()
  | pre, s :: rest =>
    match nodeAt fs (pre ++ [s]) with
    | none => .error .ENOENT
    | some (.file _) => .error .ENOTDIR
    | some (.dir _) => walk fs (pre ++ [s]) rest

/-- Model of `os.Stat`: resolve the parent, then look the path up. -/
def stat (fs : FS) (p : PathName) : Except Errno Node :=
  match walk fs [] p.dropLast with
  | .error e => .error e
  | .ok _ =>
    match nodeAt fs p with
    | none => .error .ENOENT
    | some n => .ok n

/-- Store `n` under `p`, replacing what was there. -/
def setNode (fs : FS) (p : PathName) (n : Node) : FS :=
  (p, n) :: fs.filter (fun e => decide (e.1 ≠ p))

/-- Model of `os.Mkdir(p, perm)`: the parent must exist, `p` must not. -/
def mkdir (fs : FS) (p : PathName) (perm : Nat) : Except Errno FS :=
  match walk fs [] p.dropLast with
  | .error e => .error e
  | .ok _ =>
    match nodeAt fs p with
    | some _ => .error .EEXIST
    | none => .ok (setNode fs p (.dir perm))

/-- Create the segments `rest` below `pre`, keeping directories that exist. -/
def mkdirAllFrom (perm : Nat) : FS → PathName → PathName → Except Errno FS
  | fs, _, [] => .ok fs
  | fs, pre, s :: rest =>
    match nodeAt fs (pre ++ [s]) with
    | some (.dir _) => mkdirAllFrom perm fs (pre ++ [s]) rest
    | some (.file _) => .error .ENOTDIR
    | none => mkdirAllFrom perm (setNode fs (pre ++ [s]) (.dir perm)) (pre ++ [s]) rest

/-- Model of `os.MkdirAll(p, perm)`. -/
def mkdirAll (fs : FS) (p : PathName) (perm : Nat) : Except Errno FS :=
  mkdirAllFrom perm fs [] p

/-- Model of `os.Create(p)`: open with create-or-truncate. -/
def create (fs : FS) (p : PathName) : Except Errno FS :=
  match walk fs [] p.dropLast with
  | .error e => .error e
  | .ok _ =>
    match nodeAt fs p with
    | some (.dir _) => .error .EISDIR
    | _ => .ok (setNode fs p (.file []))

/-- Bytes written through an open handle on the file at `p`. -/
def writeFile (fs : FS) (p : PathName) (bytes : List Nat) : FS :=
  match nodeAt fs p with
  | some (.file c) => setNode fs p (.file (c ++ bytes))
  | _ => fs

/-- Model of `os.RemoveAll(p)`: drop `p` and everything below it. -/
def removeAll (fs : FS) (p : PathName) : Except Errno FS :=
  .ok (fs.filter (fun e => !(p.isPrefixOf e.1)))

/-- Model of `os.Remove(p)` on a file. -/
def remove (fs : FS) (p : PathName) : FS :=
  fs.filter (fun e => decide (e.1 ≠ p))

/-- Immediate entries of the directory `d` in the table. -/
def children (fs : FS) (d : PathName) : List PathName :=
  (fs.filter (fun e => decide (e.1 ≠ [] ∧ e.1.dropLast = d))).map (fun e => e.1)

/-- Model of `filepath.Glob(d + "/*")`: the children of `d` when `d` is a
directory, nothing otherwise; file-system errors are ignored by `Glob`. -/
def glob (fs : FS) (d : PathName) : Except Errno (List PathName) :=
  match stat fs d with
  | .ok (.dir _) => .ok (children fs d)
  | _ => .ok []

/-- The path names a regular file. -/
def isFile (fs : FS) (p : PathName) : Bool :=
  match stat fs p with
  | .ok (.file _) => true
  | _ => false

/-- The path names a directory. -/
def isDir (fs : FS) (p : PathName) : Bool :=
  match stat fs p with
  | .ok (.dir _) => true
  | _ => false

/-- The path names a directory created with mode `perm`. -/
def isDirWithPerm (fs : FS) (p : PathName) (perm : Nat) : Bool :=
  match stat fs p with
  | .ok (.dir m) => decide (m = perm)
  | _ => false

/-- The bytes of the regular file at `p`, if there is one. -/
def contentOf (fs : FS) (p : PathName) : Option (List Nat) :=
  match stat fs p with
  | .ok (.file c) => some c
  | _ => none

/-! ## Processes -/

/-- What running an external command does. -/
inductive CmdResult where
  | startError
  | exited (code : Nat) (stdout stderr : List Nat)
  deriving DecidableEq, Repr

/-- The external programs: program name and arguments to result. -/
abbrev Exec := String → List String → CmdResult

/-- Observable events of a run; `key` identifies the plan entry. -/
inductive Event where
  | mkdir (p : PathName)
  | removeAll (p : PathName)
  | create (p : PathName)
  | println (key : PathName)
  | start (key : PathName)
  | startFailed (key : PathName)
  | exited (key : PathName) (code : Nat)
  | close (p : PathName)
  | signal (p : PathName)
  | wgAdd
  | spawn (p : PathName)
  | remove (p : PathName)
  | logPrintln
  | logFatal
  | goPanic
  deriving DecidableEq, Repr

/-- The state of a generator process. `wg` is the counter of the wait group
`fileDelete`; `parked` lists the files of the cleanup goroutines blocked on
their channel. -/
structure Proc where
  fs : FS
  trace : List Event := []
  wg : Nat := 0
  parked : List PathName := []
  deriving DecidableEq, Repr

/-- A computation either goes on in a state or the process has ended with an
exit status. -/
inductive Run where
  | cont (s : Proc)
  | halt (code : Nat) (s : Proc)
  deriving DecidableEq, Repr

/-- The process state carried by a result. -/
def Run.proc : Run → Proc
  | .cont s => s
  | .halt _ s => s

/-- The exit status: zero when `main` returned. -/
def Run.exitCode : Run → Nat
  | .cont _ => 0
  | .halt c _ => c

/-- Sequencing: nothing runs after the process has ended. -/
def Run.andThen (r : Run) (k : Proc → Run) : Run :=
  match r with
  | .cont s => k s
  | .halt c s => .halt c s

/-- Append events to the trace. -/
def Proc.log (s : Proc) (es : List Event) : Proc :=
  { s with trace := s.trace ++ es }

/-- The loop over the glob matches of both mains: `os.RemoveAll` on each,
fatal on the first error. -/
def removeEach : List PathName → Proc → Run
  | [], s => .cont s
  | f :: rest, s =>
    match removeAll s.fs f with
    | .error _ => .halt 1 (s.log [.logFatal])
    | .ok fs1 => removeEach rest ({ s with fs := fs1 }.log [.removeAll f])

/-- Lines 29-37 of calr and 68-76 of fortuner: glob the directory and remove
every match. -/
def clearDir (d : PathName) (s : Proc) : Run :=
  match glob s.fs d with
  | .error _ => .halt 1 (s.log [.logFatal])
  | .ok files => removeEach files s

/-- A path as the string the program passes on: segments joined by `/`. -/
def render (p : PathName) : String :=
  "/" ++ String.intercalate "/" p

/-! ## fortuner: `src/ch12/fortuner/mk-out.go` -/

namespace Fortuner

/-- Path of the standard-output file: `filepath.Join(OutDir, outFileName+".out")`. -/
def outPath (OutDir : PathName) (outFileName : String) : PathName :=
  OutDir ++ [outFileName ++ ".out"]

/-- Path of the standard-error file: `filepath.Join(OutDir, outFileName+".err")`. -/
def errPath (OutDir : PathName) (outFileName : String) : PathName :=
  OutDir ++ [outFileName ++ ".err"]

/-- Key of a plan entry in the trace. -/
def entryKey (OutDir : PathName) (outFileName : String) : PathName :=
  OutDir ++ [outFileName]

/-- Function `makeOutFile` (lines 18-46). Both files are created, the command
is started and waited for; a start error is fatal, a wait error is printed.
The deferred closes run when the function returns, last registered first. -/
def makeOutFile (exec : Exec) (OutDir : PathName) (outFileName : String)
    (args : List String) (s : Proc) : Run :=
  let key := entryKey OutDir outFileName
  match create s.fs (outPath OutDir outFileName) with
  | .error _ => .halt 1 (s.log [.logFatal])
  | .ok fs1 =>
    let s1 := { s with fs := fs1 }.log [.create (outPath OutDir outFileName)]
    match create s1.fs (errPath OutDir outFileName) with
    | .error _ => .halt 1 (s1.log [.logFatal])
    | .ok fs2 =>
      let s2 := { s1 with fs := fs2 }.log
        [.create (errPath OutDir outFileName), .println key, .start key]
      match exec "fortune" args with
      | .startError => .halt 1 (s2.log [.startFailed key, .logFatal])
      | .exited code out err =>
        let fs3 := writeFile (writeFile s2.fs (outPath OutDir outFileName) out)
          (errPath OutDir outFileName) err
        let s3 := { s2 with fs := fs3 }.log [.exited key code]
        let s4 := if code = 0 then s3 else s3.log [.logPrintln]
        .cont (s4.log [.close (errPath OutDir outFileName), .close (outPath OutDir outFileName)])

/-- Lines 57-66 of `main`: stat the directory; make it when it is missing;
`info.IsDir()` is called on the result otherwise, which is nil when stat
failed for another reason. -/
def ensureDir (OutDir : PathName) (s : Proc) : Run :=
  match stat s.fs OutDir with
  | .error .ENOENT =>
    match mkdir s.fs OutDir 0o755 with
    | .error _ => .halt 1 (s.log [.logFatal])
    | .ok fs1 => .cont ({ s with fs := fs1 }.log [.mkdir OutDir])
  | .error _ => .halt 2 (s.log [.goPanic])
  | .ok (.dir _) => .cont s
  | .ok (.file _) => .halt 1 (s.log [.logFatal])

/-- Directory reset, lines 57-76 of `main`. -/
def resetDir (OutDir : PathName) (s : Proc) : Run :=
  (ensureDir OutDir s).andThen (clearDir OutDir)

/-- The calls of `makeOutFile` in `main` (lines 78-98), in order. -/
def plan (InDir : String) : List (String × List String) :=
  let files := [InDir ++ "/literature", InDir ++ "/quotes"]
  [ ("berra_cap", ["-m", "Yogi Berra"] ++ files),
    ("twain_cap", ["-m", "Mark Twain"] ++ files),
    ("berra_lower", ["-m", "yogi berra"] ++ files),
    ("twain_lower", ["-m", "mark twain"] ++ files),
    ("berra_lower_i", ["-i", "-m", "yogi berra"] ++ files),
    ("twain_lower_i", ["-i", "-m", "mark twain"] ++ files) ]

/-- Run the entries of a plan one after the other. -/
def runPlan (exec : Exec) (OutDir : PathName) : List (String × List String) → Proc → Run
  | [], s => .cont s
  | e :: rest, s => (makeOutFile exec OutDir e.1 e.2 s).andThen (runPlan exec OutDir rest)

/-- Function `main`; `getwd` is the result of `os.Getwd`. -/
def main (exec : Exec) (getwd : Except Errno PathName) (s : Proc) : Run :=
  match getwd with
  | .error _ => .halt 1 (s.log [.logFatal])
  | .ok workingDir =>
    let InDir := workingDir ++ ["tests", "inputs"]
    let OutDir := workingDir ++ ["tests", "expected"]
    (resetDir OutDir s).andThen (runPlan exec OutDir (plan (render InDir)))

end Fortuner

/-! ## calr: `src/ch13/calr/mk-outs.go` -/

namespace Calr

/-- Constant `OUTDIR`: the relative path `tests/expected`. -/
def OUTDIR : PathName := ["tests", "expected"]

/-- Function `run_ccal` (lines 46-75). The file is created only when stat says
it does not exist. When the command fails the counter is raised, the cleanup
goroutine is started and `log.Fatal` ends the process: the deferred
`f.Close(); close(runEnd)` does not run, so the goroutine stays blocked on
its receive and is recorded in `parked`. -/
def run_ccal (exec : Exec) (outfile : PathName) (args : List String) (s : Proc) : Run :=
  match stat s.fs outfile with
  | .error .ENOENT =>
    match create s.fs outfile with
    | .error _ => .halt 1 (s.log [.logFatal])
    | .ok fs1 =>
      let s1 := { s with fs := fs1 }.log [.create outfile, .println outfile, .start outfile]
      match exec "ccal" args with
      | .exited 0 out _ =>
        .cont ({ s1 with fs := writeFile s1.fs outfile out }.log
          [.exited outfile 0, .close outfile, .signal outfile])
      | .exited (code + 1) out _ =>
        .halt 1 ({ s1 with fs := writeFile s1.fs outfile out, wg := s1.wg + 1,
                           parked := outfile :: s1.parked }.log
          [.exited outfile (code + 1), .wgAdd, .spawn outfile, .logFatal])
      | .startError =>
        .halt 1 ({ s1 with wg := s1.wg + 1, parked := outfile :: s1.parked }.log
          [.startFailed outfile, .wgAdd, .spawn outfile, .logFatal])
  | _ => .halt 1 (s.log [.logFatal])

/-- Lines 18-27 of `main`: stat the directory and make it, with its parents,
when it is missing; the stat result itself is discarded. -/
def ensureDir (s : Proc) : Run :=
  match stat s.fs OUTDIR with
  | .error .ENOENT =>
    match mkdirAll s.fs OUTDIR 0o755 with
    | .error _ => .halt 1 (s.log [.logFatal])
    | .ok fs1 => .cont ({ s with fs := fs1 }.log [.mkdir OUTDIR])
  | .error _ => .halt 1 (s.log [.logFatal])
  | .ok _ => .cont s

/-- Directory reset, lines 18-37 of `main`. -/
def resetDir (s : Proc) : Run :=
  (ensureDir s).andThen (clearDir OUTDIR)

/-- The calls of `run_ccal` in `main` (lines 39-42), in order. -/
def plan : List (PathName × List String) :=
  [ (OUTDIR ++ ["2020.txt"], ["2020"]),
    (OUTDIR ++ ["2-2020.txt"], ["2", "2020"]),
    (OUTDIR ++ ["4-2020.txt"], ["4", "2020"]),
    (OUTDIR ++ ["5-2020.txt"], ["5", "2020"]) ]

/-- Run the entries of a plan one after the other. -/
def runPlan (exec : Exec) : List (PathName × List String) → Proc → Run
  | [], s => .cont s
  | e :: rest, s => (run_ccal exec e.1 e.2 s).andThen (runPlan exec rest)

/-- The call `fileDelete.Wait()` (line 43): returns when the counter is zero;
with a positive counter and every goroutine blocked the runtime aborts. -/
def waitGroup (s : Proc) : Run :=
  if s.wg = 0 then .cont s else .halt 2 (s.log [.goPanic])

/-- Function `main`. -/
def main (exec : Exec) (s : Proc) : Run :=
  ((resetDir s).andThen (runPlan exec plan)).andThen waitGroup

/-! ### `run_ccal` with its cleanup goroutine, step by step

The main sequence and the goroutine started at line 68 are two threads over a
shared state; a schedule picks which one moves next. -/

/-- Program points of the main sequence inside `run_ccal`. -/
inductive MainPc where
  | stat
  | create
  | println
  | run
  | wgAdd
  | spawn
  | fatal
  | deferClose
  | deferSignal
  | returned
  deriving DecidableEq, Repr

/-- Program points of the cleanup goroutine (lines 68-72). -/
inductive GoPc where
  | recv
  | remove
  | wgDone
  | finished
  deriving DecidableEq, Repr

/-- The two threads. -/
inductive Thread where
  | main
  | cleanup
  deriving DecidableEq, Repr

/-- Shared state of one call of `run_ccal`: `go` is the goroutine once it is
started, `fileOpen` the handle `f`, `runEnd` whether the channel is closed,
`exit` the status once the process has ended. -/
structure Conc where
  fs : FS
  pc : MainPc := .stat
  go : Option GoPc := none
  fileOpen : Bool := false
  runEnd : Bool := false
  wg : Nat := 0
  exit : Option Nat := none
  trace : List Event := []
  deriving DecidableEq, Repr

/-- One move of the main sequence; none when it has returned or the process
has ended. -/
def mainStep (exec : Exec) (outfile : PathName) (args : List String) (c : Conc) :
    Option Conc :=
  match c.exit with
  | some _ => none
  | none =>
    match c.pc with
    | .stat =>
      match stat c.fs outfile with
      | .error .ENOENT => some { c with pc := .create }
      | _ => some { c with exit := some 1, trace := c.trace ++ [.logFatal] }
    | .create =>
      match create c.fs outfile with
      | .error _ => some { c with exit := some 1, trace := c.trace ++ [.logFatal] }
      | .ok fs1 =>
        some { c with fs := fs1, fileOpen := true, pc := .println,
                      trace := c.trace ++ [.create outfile] }
    | .println => some { c with pc := .run, trace := c.trace ++ [.println outfile] }
    | .run =>
      match exec "ccal" args with
      | .exited 0 out _ =>
        some { c with fs := writeFile c.fs outfile out, pc := .deferClose,
                      trace := c.trace ++ [.start outfile, .exited outfile 0] }
      | .exited (code + 1) out _ =>
        some { c with fs := writeFile c.fs outfile out, pc := .wgAdd,
                      trace := c.trace ++ [.start outfile, .exited outfile (code + 1)] }
      | .startError =>
        some { c with pc := .wgAdd,
                      trace := c.trace ++ [.start outfile, .startFailed outfile] }
    | .wgAdd => some { c with wg := c.wg + 1, pc := .spawn, trace := c.trace ++ [.wgAdd] }
    | .spawn =>
      some { c with go := some .recv, pc := .fatal, trace := c.trace ++ [.spawn outfile] }
    | .fatal => some { c with exit := some 1, trace := c.trace ++ [.logFatal] }
    | .deferClose =>
      some { c with fileOpen := false, pc := .deferSignal,
                    trace := c.trace ++ [.close outfile] }
    | .deferSignal =>
      some { c with runEnd := true, pc := .returned, trace := c.trace ++ [.signal outfile] }
    | .returned => none

/-- One move of the cleanup goroutine; the receive is enabled only once the
channel is closed. -/
def goStep (outfile : PathName) (c : Conc) : Option Conc :=
  match c.exit with
  | some _ => none
  | none =>
    match c.go with
    | some .recv => if c.runEnd then some { c with go := some .remove } else none
    | some .remove =>
      some { c with fs := remove c.fs outfile, go := some .wgDone,
                    trace := c.trace ++ [.remove outfile] }
    | some .wgDone => some { c with wg := c.wg - 1, go := some .finished }
    | _ => none

/-- The scheduler lets thread `t` move; a thread that cannot move leaves the
state as it is. -/
def step (exec : Exec) (outfile : PathName) (args : List String) (t : Thread) (c : Conc) :
    Conc :=
  match t with
  | .main => (mainStep exec outfile args c).getD c
  | .cleanup => (goStep outfile c).getD c

/-- Run a schedule from a state. -/
def runSched (exec : Exec) (outfile : PathName) (args : List String) :
    List Thread → Conc → Conc
  | [], c => c
  | t :: rest, c => runSched exec outfile args rest (step exec outfile args t c)

/-- The per-file events in the order the design wants them. -/
def orderEvents (p : PathName) : List Event :=
  [.create p, .start p, .close p, .signal p, .remove p]

/-- The per-file events of a trace, in the order they happened. -/
def fileEvents (p : PathName) (tr : List Event) : List Event :=
  tr.filter (fun e => decide (e ∈ orderEvents p))

end Calr

/-! ## Auxiliary definitions for the proofs -/

namespace Calr

/-- What the shared state looks like at each program point of the main
sequence: the per-file events so far, the goroutine, the channel, the handle
and the counter. -/
def shapeAt (p : PathName) : MainPc → List Event × Option GoPc × Bool × Bool × Nat
  | .stat => ([], none, false, false, 0)
  | .create => ([], none, false, false, 0)
  | .println => ([.create p], none, false, true, 0)
  | .run => ([.create p], none, false, true, 0)
  | .wgAdd => ([.create p, .start p], none, false, true, 0)
  | .spawn => ([.create p, .start p], none, false, true, 1)
  | .fatal => ([.create p, .start p], some .recv, false, true, 1)
  | .deferClose => ([.create p, .start p], none, false, true, 0)
  | .deferSignal => ([.create p, .start p, .close p], none, false, false, 0)
  | .returned => ([.create p, .start p, .close p, .signal p], none, true, false, 0)

/-- Invariant of the step model of `run_ccal`. -/
def StepInv (p : PathName) (c : Conc) : Prop :=
  (fileEvents p c.trace, c.go, c.runEnd, c.fileOpen, c.wg) = shapeAt p c.pc

end Calr

/-- The table is a tree: every stored path resolves through directories. -/
def WellFormed (fs : FS) : Bool :=
  fs.all (fun e => match walk fs [] e.1.dropLast with
    | .ok _ => true
    | .error _ => false)

/-! ## Sample inputs -/

/-- Every command runs, writes the bytes `1 2` and exits with status 0. -/
def execOk : Exec := fun _ _ => .exited 0 [1, 2] []

/-- Every command runs, writes one byte and exits with status 1. -/
def execExitOne : Exec := fun _ _ => .exited 1 [7] []

/-- No command can be started (the program is not installed). -/
def execNoStart : Exec := fun _ _ => .startError

/-- The first entry of each plan succeeds, every other command exits with
status 1. -/
def execFirstOnly : Exec := fun _ args =>
  if args = ["2020"] ∨ args.take 2 = ["-m", "Yogi Berra"] then .exited 0 [1, 2] []
  else .exited 1 [7] [8]

/-- An empty `tests/expected` directory. -/
def fsEmptyDir : FS :=
  [(["tests"], .dir 0o755), (["tests", "expected"], .dir 0o755)]

/-- The path `tests/expected` is a regular file. -/
def fsOutIsFile : FS :=
  [(["tests"], .dir 0o755), (["tests", "expected"], .file [9])]

/-- The path `tests` is a regular file, so `tests/expected` cannot be resolved. -/
def fsTestsIsFile : FS :=
  [(["tests"], .file [])]

/-- Neither `tests` nor `tests/expected` exists. -/
def fsNoTests : FS := []

/-- A `tests/expected` with stale results, a dot-file and a directory that is not empty. -/
def fsStale : FS :=
  [(["tests"], .dir 0o755), (["tests", "expected"], .dir 0o755),
   (["tests", "expected", "old.out"], .file [1]),
   (["tests", "expected", "old.err"], .file []),
   (["tests", "expected", ".hidden"], .file [2]),
   (["tests", "expected", "sub"], .dir 0o700),
   (["tests", "expected", "sub", "deep.txt"], .file [3])]

/-- The file `tests/expected/2020.txt` is there already. -/
def fsHasOutput : FS :=
  [(["tests"], .dir 0o755), (["tests", "expected"], .dir 0o755),
   (["tests", "expected", "2020.txt"], .file [4, 5])]

/-! ## Invariants of a run -/

/-- The event belongs to the command of the plan entry `key`. -/
def Event.ofCommand (key : PathName) : Event → Bool
  | .start k => decide (k = key)
  | .startFailed k => decide (k = key)
  | .exited k _ => decide (k = key)
  | _ => false

/-- The event belongs to the directory reset or ends the process. -/
def Event.isSetup : Event → Bool
  | .mkdir _ => true
  | .removeAll _ => true
  | .logFatal => true
  | .goPanic => true
  | _ => false

namespace Fortuner

/-- Every entry whose command was started has both its files. -/
def Kept (d : PathName) (s : Proc) : Prop :=
  ∀ (n : String) (e : Event), e ∈ s.trace → e.ofCommand (entryKey d n) = true →
    isFile s.fs (outPath d n) = true ∧ isFile s.fs (errPath d n) = true

/-- No cleanup exists: no goroutine was started, the counter is zero. -/
def NoCleanup (s : Proc) : Prop :=
  (∀ e ∈ s.trace, ∀ p, e ≠ .spawn p ∧ e ≠ .remove p ∧ e ≠ .wgAdd) ∧ s.wg = 0 ∧ s.parked = []

end Fortuner

namespace Calr

/-- Every entry whose command was started has its file. -/
def Kept (s : Proc) : Prop :=
  ∀ (p : PathName) (e : Event), e ∈ s.trace → e.ofCommand p = true → isFile s.fs p = true

/-- While the run goes on no cleanup goroutine exists and the counter is zero. -/
def Running (s : Proc) : Prop :=
  Kept s ∧ (∀ p, Event.spawn p ∉ s.trace) ∧ s.parked = [] ∧ s.wg = 0

/-- At any time, also after a fatal exit: files of started commands are
there, and no cleanup was set up for a command that exited with status zero. -/
def Settled (s : Proc) : Prop :=
  Kept s ∧ ∀ p, Event.exited p 0 ∈ s.trace → Event.spawn p ∉ s.trace ∧ p ∉ s.parked

end Calr

/-- Nothing but the directory reset has happened so far. -/
def Fresh (s : Proc) : Prop :=
  (∀ e ∈ s.trace, e.isSetup = true) ∧ s.wg = 0 ∧ s.parked = []

/-! ## Facts about the file system -/

theorem lookupNode_filter_ne (fs : FS) (p q : PathName) (h : q ≠ p) :
    lookupNode (fs.filter (fun e => decide (e.1 ≠ p))) q = lookupNode fs q := by
  induction fs with
  | nil => rfl
  | cons e rest ih =>
    obtain ⟨r, n⟩ := e
    rw [List.filter_cons]
    by_cases hr : r = p
    · have hd : decide ((r, n).1 ≠ p) = false := by simp [hr]
      have hne : ¬ r = q := fun hh => h (hh.symm.trans hr)
      rw [hd, if_neg (by simp), ih]
      simp [lookupNode, hne]
    · have hd : decide ((r, n).1 ≠ p) = true := by simp [hr]
      rw [hd, if_pos rfl]
      by_cases hq : r = q
      · simp [lookupNode, hq]
      · simp only [lookupNode, hq, if_false]
        exact ih

theorem nodeAt_setNode_ne (fs : FS) (p q : PathName) (n : Node) (h : q ≠ p) :
    nodeAt (setNode fs p n) q = nodeAt fs q := by
  cases q with
  | nil => rfl
  | cons a l =>
    have hne : ¬ p = a :: l := fun hh => h hh.symm
    simp only [nodeAt, setNode, lookupNode, hne, if_false]
    exact lookupNode_filter_ne fs p (a :: l) h

theorem nodeAt_setNode_self (fs : FS) (p : PathName) (n : Node) (h : p ≠ []) :
    nodeAt (setNode fs p n) p = some n := by
  cases p with
  | nil => exact absurd rfl h
  | cons a l => simp [nodeAt, setNode, lookupNode]

/-- A path whose node is not a directory is not the base directory. -/
theorem ne_nil_of_not_dir (fs : FS) (p : PathName)
    (hnd : ∀ m, nodeAt fs p ≠ some (.dir m)) : p ≠ [] := by
  intro h
  subst h
  exact hnd _ rfl

/-- Resolution does not pass through a path that is not a directory, so it
does not see a change made there. -/
theorem walk_setNode (fs : FS) (p : PathName) (n : Node)
    (hnd : ∀ m, nodeAt fs p ≠ some (.dir m)) (rest pre : PathName)
    (h : walk fs pre rest = .ok ()) : walk (setNode fs p n) pre rest = .ok () := by
  induction rest generalizing pre with
  | nil => rfl
  | cons s rest ih =>
    unfold walk at h ⊢
    cases hn : nodeAt fs (pre ++ [s]) with
    | none => simp [hn] at h
    | some x =>
      cases x with
      | file c => simp [hn] at h
      | dir m =>
        have hne : pre ++ [s] ≠ p := by
          intro hh
          rw [hh] at hn
          exact hnd m hn
        rw [nodeAt_setNode_ne fs p _ n hne, hn]
        simp only [hn] at h
        exact ih _ h

theorem stat_ok_iff (fs : FS) (p : PathName) (x : Node) :
    stat fs p = .ok x ↔ walk fs [] p.dropLast = .ok () ∧ nodeAt fs p = some x := by
  unfold stat
  cases hw : walk fs [] p.dropLast with
  | error e => simp
  | ok u =>
    cases hn : nodeAt fs p with
    | none => simp
    | some y => simp

theorem stat_setNode_of_ne (fs : FS) (p q : PathName) (n x : Node)
    (hnd : ∀ m, nodeAt fs p ≠ some (.dir m)) (hq : q ≠ p)
    (h : stat fs q = .ok x) : stat (setNode fs p n) q = .ok x := by
  rw [stat_ok_iff] at h ⊢
  exact ⟨walk_setNode fs p n hnd _ _ h.1, by rw [nodeAt_setNode_ne fs p q n hq]; exact h.2⟩

theorem stat_setNode_self (fs : FS) (p : PathName) (n : Node)
    (hnd : ∀ m, nodeAt fs p ≠ some (.dir m))
    (hw : walk fs [] p.dropLast = .ok ()) : stat (setNode fs p n) p = .ok n := by
  rw [stat_ok_iff]
  exact ⟨walk_setNode fs p n hnd _ _ hw,
    nodeAt_setNode_self fs p n (ne_nil_of_not_dir fs p hnd)⟩

/-- What a successful `create` is. -/
theorem create_ok (fs fs1 : FS) (p : PathName) (h : create fs p = .ok fs1) :
    walk fs [] p.dropLast = .ok () ∧ (∀ m, nodeAt fs p ≠ some (.dir m)) ∧
      fs1 = setNode fs p (.file []) := by
  unfold create at h
  cases hw : walk fs [] p.dropLast with
  | error e => simp [hw] at h
  | ok u =>
    simp only [hw] at h
    cases hn : nodeAt fs p with
    | none =>
      simp only [hn] at h
      exact ⟨rfl, by simp, by injection h with h; exact h.symm⟩
    | some y =>
      cases y with
      | dir m => simp [hn] at h
      | file c =>
        simp only [hn] at h
        exact ⟨rfl, by simp, by injection h with h; exact h.symm⟩

theorem stat_create_self (fs fs1 : FS) (p : PathName) (h : create fs p = .ok fs1) :
    stat fs1 p = .ok (.file []) := by
  obtain ⟨hw, hnd, rfl⟩ := create_ok fs fs1 p h
  exact stat_setNode_self fs p _ hnd hw

theorem stat_create_of_ne (fs fs1 : FS) (p q : PathName) (x : Node)
    (h : create fs p = .ok fs1) (hq : q ≠ p) (hs : stat fs q = .ok x) :
    stat fs1 q = .ok x := by
  obtain ⟨_, hnd, rfl⟩ := create_ok fs fs1 p h
  exact stat_setNode_of_ne fs p q _ x hnd hq hs

theorem isFile_iff (fs : FS) (p : PathName) :
    isFile fs p = true ↔ ∃ c, stat fs p = .ok (.file c) := by
  unfold isFile
  cases hs : stat fs p with
  | error e => simp
  | ok x => cases x <;> simp

theorem isDir_iff (fs : FS) (p : PathName) :
    isDir fs p = true ↔ ∃ m, stat fs p = .ok (.dir m) := by
  unfold isDir
  cases hs : stat fs p with
  | error e => simp
  | ok x => cases x <;> simp

theorem isFile_create (fs fs1 : FS) (p q : PathName) (h : create fs p = .ok fs1)
    (hq : isFile fs q = true) : isFile fs1 q = true := by
  rw [isFile_iff] at hq ⊢
  by_cases hpq : q = p
  · subst hpq
    exact ⟨[], stat_create_self fs fs1 q h⟩
  · obtain ⟨c, hc⟩ := hq
    exact ⟨c, stat_create_of_ne fs fs1 p q _ h hpq hc⟩

theorem isFile_create_self (fs fs1 : FS) (p : PathName) (h : create fs p = .ok fs1) :
    isFile fs1 p = true :=
  (isFile_iff fs1 p).2 ⟨[], stat_create_self fs fs1 p h⟩

theorem isDir_create (fs fs1 : FS) (p q : PathName) (h : create fs p = .ok fs1)
    (hq : isDir fs q = true) : isDir fs1 q = true := by
  rw [isDir_iff] at hq ⊢
  obtain ⟨m, hm⟩ := hq
  have hpq : q ≠ p := by
    intro hh
    subst hh
    exact (create_ok fs fs1 q h).2.1 m ((stat_ok_iff fs q _).1 hm).2
  exact ⟨m, stat_create_of_ne fs fs1 p q _ h hpq hm⟩

theorem stat_writeFile_of_ne (fs : FS) (p q : PathName) (b : List Nat) (x : Node)
    (hq : q ≠ p) (hs : stat fs q = .ok x) : stat (writeFile fs p b) q = .ok x := by
  unfold writeFile
  cases hn : nodeAt fs p with
  | none => exact hs
  | some y =>
    cases y with
    | dir m => exact hs
    | file c =>
      exact stat_setNode_of_ne fs p q _ x (by simp [hn]) hq hs

theorem stat_writeFile_self (fs : FS) (p : PathName) (b c : List Nat)
    (hs : stat fs p = .ok (.file c)) : stat (writeFile fs p b) p = .ok (.file (c ++ b)) := by
  obtain ⟨hw, hn⟩ := (stat_ok_iff fs p _).1 hs
  unfold writeFile
  simp only [hn]
  exact stat_setNode_self fs p _ (by simp [hn]) hw

theorem isFile_writeFile (fs : FS) (p q : PathName) (b : List Nat)
    (hq : isFile fs q = true) : isFile (writeFile fs p b) q = true := by
  rw [isFile_iff] at hq ⊢
  obtain ⟨c, hc⟩ := hq
  by_cases hpq : q = p
  · subst hpq
    exact ⟨c ++ b, stat_writeFile_self fs q b c hc⟩
  · exact ⟨c, stat_writeFile_of_ne fs p q b _ hpq hc⟩

theorem isDir_writeFile (fs : FS) (p q : PathName) (b : List Nat)
    (hq : isDir fs q = true) : isDir (writeFile fs p b) q = true := by
  rw [isDir_iff] at hq ⊢
  obtain ⟨m, hm⟩ := hq
  by_cases hpq : q = p
  · subst hpq
    have hn := ((stat_ok_iff fs q _).1 hm).2
    unfold writeFile
    simp only [hn]
    exact ⟨m, hm⟩
  · exact ⟨m, stat_writeFile_of_ne fs p q b _ hpq hm⟩

theorem lookupNode_filter_keep (fs : FS) (f : PathName × Node → Bool) (q : PathName)
    (h : ∀ n, f (q, n) = true) : lookupNode (fs.filter f) q = lookupNode fs q := by
  induction fs with
  | nil => rfl
  | cons e rest ih =>
    obtain ⟨r, n⟩ := e
    rw [List.filter_cons]
    by_cases hr : r = q
    · subst hr
      rw [h n, if_pos rfl]
      simp [lookupNode]
    · cases hf : f (r, n) with
      | true =>
        rw [if_pos rfl]
        simp only [lookupNode, hr, if_false]
        exact ih
      | false =>
        rw [if_neg (by simp)]
        simp only [lookupNode, hr, if_false]
        exact ih

theorem nodeAt_filter_keep (fs : FS) (f : PathName × Node → Bool) (q : PathName)
    (h : ∀ n, f (q, n) = true) : nodeAt (fs.filter f) q = nodeAt fs q := by
  cases q with
  | nil => rfl
  | cons a l => exact lookupNode_filter_keep fs f (a :: l) h

theorem walk_filter_keep (fs : FS) (f : PathName × Node → Bool) (rest pre : PathName)
    (h : ∀ q : PathName, q.length ≤ (pre ++ rest).length → ∀ n, f (q, n) = true) :
    walk (fs.filter f) pre rest = walk fs pre rest := by
  induction rest generalizing pre with
  | nil => rfl
  | cons s rest ih =>
    unfold walk
    have hk : nodeAt (fs.filter f) (pre ++ [s]) = nodeAt fs (pre ++ [s]) :=
      nodeAt_filter_keep fs f _ (h _ (by simp))
    rw [hk]
    cases hn : nodeAt fs (pre ++ [s]) with
    | none => rfl
    | some x =>
      cases x with
      | file c => rfl
      | dir m =>
        exact ih (pre ++ [s]) (by simpa using h)

theorem stat_filter_keep (fs : FS) (f : PathName × Node → Bool) (d : PathName)
    (h : ∀ q : PathName, q.length ≤ d.length → ∀ n, f (q, n) = true) :
    stat (fs.filter f) d = stat fs d := by
  unfold stat
  rw [walk_filter_keep fs f d.dropLast [] (by
    intro q hq n
    apply h q _ n
    simp at hq
    omega), nodeAt_filter_keep fs f d (h d (le_refl _))]

theorem mem_children (fs : FS) (d c : PathName) :
    c ∈ children fs d ↔ ∃ n, (c, n) ∈ fs ∧ c ≠ [] ∧ c.dropLast = d := by
  unfold children
  simp only [List.mem_map, List.mem_filter, decide_eq_true_eq]
  constructor
  · rintro ⟨⟨r, n⟩, ⟨hm, h1, h2⟩, rfl⟩
    exact ⟨n, hm, h1, h2⟩
  · rintro ⟨n, hm, h1, h2⟩
    exact ⟨(c, n), ⟨hm, h1, h2⟩, rfl⟩

theorem length_of_mem_children (fs : FS) (d c : PathName) (h : c ∈ children fs d) :
    c.length = d.length + 1 := by
  obtain ⟨n, _, h1, h2⟩ := (mem_children fs d c).1 h
  have hl : 0 < c.length := List.length_pos.2 h1
  rw [← h2, List.length_dropLast]
  omega

theorem isPrefixOf_length_le (c q : PathName) (h : c.isPrefixOf q = true) :
    c.length ≤ q.length :=
  (List.isPrefixOf_iff_prefix.1 h).length_le

theorem isPrefixOf_self (c : PathName) : c.isPrefixOf c = true :=
  List.isPrefixOf_iff_prefix.2 (List.prefix_refl c)

/-- The removal loop never fails in the model; it filters the table and logs
one event for each path. -/
theorem removeEach_spec (cs : List PathName) (s : Proc) :
    removeEach cs s = .cont
      { s with fs := s.fs.filter (fun e => cs.all (fun c => !(c.isPrefixOf e.1))),
               trace := s.trace ++ cs.map Event.removeAll } := by
  induction cs generalizing s with
  | nil => simp [removeEach]
  | cons c cs ih =>
    simp only [removeEach, removeAll, Proc.log]
    rw [ih]
    simp [List.filter_filter, Bool.and_comm]

/-- Removing every child of a directory leaves the directory in place. -/
theorem stat_clear (fs : FS) (d : PathName) :
    stat (fs.filter (fun e => (children fs d).all (fun c => !(c.isPrefixOf e.1)))) d
      = stat fs d := by
  apply stat_filter_keep
  intro q hq n
  rw [List.all_eq_true]
  intro c hc
  have hl := length_of_mem_children fs d c hc
  cases hp : c.isPrefixOf q with
  | false => rfl
  | true =>
    have := isPrefixOf_length_le c q hp
    simp only at hl
    omega

/-- Removing every child of a directory leaves it without entries. -/
theorem children_clear (fs : FS) (d : PathName) :
    children (fs.filter (fun e => (children fs d).all (fun c => !(c.isPrefixOf e.1)))) d
      = [] := by
  unfold children
  rw [List.map_eq_nil_iff, List.filter_eq_nil_iff]
  rintro ⟨r, n⟩ hm
  rw [List.mem_filter] at hm
  obtain ⟨hm, hall⟩ := hm
  simp only [decide_eq_true_eq]
  rintro ⟨h1, h2⟩
  have hc : r ∈ children fs d := (mem_children fs d r).2 ⟨n, hm, h1, h2⟩
  rw [List.all_eq_true] at hall
  have := hall r hc
  simp [isPrefixOf_self] at this

/-- The clearing phase on a directory: it goes on, the directory is still
there and has no entries; counter and goroutines are untouched. -/
theorem clearDir_of_isDir (d : PathName) (s : Proc) (h : isDir s.fs d = true) :
    ∃ s', clearDir d s = .cont s' ∧ isDir s'.fs d = true ∧ children s'.fs d = [] ∧
      stat s'.fs d = stat s.fs d ∧ s'.wg = s.wg ∧ s'.parked = s.parked ∧
      s'.trace = s.trace ++ (children s.fs d).map Event.removeAll := by
  obtain ⟨m, hm⟩ := (isDir_iff s.fs d).1 h
  refine ⟨{ s with
      fs := s.fs.filter (fun e => (children s.fs d).all (fun c => !(c.isPrefixOf e.1))),
      trace := s.trace ++ (children s.fs d).map Event.removeAll },
    ?_, ?_, ?_, ?_, rfl, rfl, rfl⟩
  · simp only [clearDir, glob, hm]
    exact removeEach_spec _ s
  · rw [isDir_iff]
    exact ⟨m, by simp only [stat_clear, hm]⟩
  · exact children_clear s.fs d
  · exact stat_clear s.fs d

/-- The clearing phase on a path that is not a directory does nothing. -/
theorem clearDir_of_not_isDir (d : PathName) (s : Proc) (h : isDir s.fs d = false) :
    clearDir d s = .cont s := by
  unfold isDir at h
  unfold clearDir glob
  cases hs : stat s.fs d with
  | error e => simp [removeEach]
  | ok x =>
    cases x with
    | file c => simp [removeEach]
    | dir m => simp [hs] at h

namespace Calr

theorem fileEvents_append (p : PathName) (a b : List Event) :
    fileEvents p (a ++ b) = fileEvents p a ++ fileEvents p b := by
  simp [fileEvents, List.filter_append]

theorem stepInv_init (p : PathName) (fs0 : FS) : StepInv p { fs := fs0 } := by
  simp [StepInv, shapeAt, fileEvents]

theorem stepInv_mainStep (exec : Exec) (p : PathName) (args : List String) (c c1 : Conc)
    (h : StepInv p c) (hs : mainStep exec p args c = some c1) : StepInv p c1 := by
  unfold mainStep at hs
  cases hx : c.exit with
  | some v => simp [hx] at hs
  | none =>
    simp only [hx] at hs
    unfold StepInv at h ⊢
    cases hpc : c.pc <;> simp only [hpc, shapeAt, Prod.mk.injEq] at h hs <;>
      obtain ⟨h1, h2, h3, h4, h5⟩ := h
    · cases hst : stat c.fs p with
      | ok x =>
        simp only [hst, Option.some.injEq] at hs
        subst hs
        simp only [fileEvents_append, h1]
        simp [h2, h3, h4, h5, hpc, shapeAt, fileEvents, orderEvents]
      | error e =>
        cases e <;> simp only [hst, Option.some.injEq] at hs <;> subst hs <;>
          simp only [fileEvents_append, h1] <;>
          simp [h2, h3, h4, h5, hpc, shapeAt, fileEvents, orderEvents]
    · cases hcr : create c.fs p with
      | ok x =>
        simp only [hcr, Option.some.injEq] at hs
        subst hs
        simp only [fileEvents_append, h1]
        simp [h2, h3, h4, h5, shapeAt, fileEvents, orderEvents]
      | error e =>
        simp only [hcr, Option.some.injEq] at hs
        subst hs
        simp only [fileEvents_append, h1]
        simp [h2, h3, h4, h5, hpc, shapeAt, fileEvents, orderEvents]
    · simp only [Option.some.injEq] at hs
      subst hs
      simp only [fileEvents_append, h1]
      simp [h2, h3, h4, h5, shapeAt, fileEvents, orderEvents]
    · cases hex : exec "ccal" args with
      | startError =>
        simp only [hex, Option.some.injEq] at hs
        subst hs
        simp only [fileEvents_append, h1]
        simp [h2, h3, h4, h5, shapeAt, fileEvents, orderEvents]
      | exited code out err =>
        cases code <;> simp only [hex, Option.some.injEq] at hs <;> subst hs <;>
          simp only [fileEvents_append, h1] <;>
          simp [h2, h3, h4, h5, shapeAt, fileEvents, orderEvents]
    · simp only [Option.some.injEq] at hs
      subst hs
      simp only [fileEvents_append, h1]
      simp [h2, h3, h4, h5, shapeAt, fileEvents, orderEvents]
    · simp only [Option.some.injEq] at hs
      subst hs
      simp only [fileEvents_append, h1]
      simp [h2, h3, h4, h5, shapeAt, fileEvents, orderEvents]
    · simp only [Option.some.injEq] at hs
      subst hs
      simp only [fileEvents_append, h1]
      simp [h2, h3, h4, h5, hpc, shapeAt, fileEvents, orderEvents]
    · simp only [Option.some.injEq] at hs
      subst hs
      simp only [fileEvents_append, h1]
      simp [h2, h3, h4, h5, shapeAt, fileEvents, orderEvents]
    · simp only [Option.some.injEq] at hs
      subst hs
      simp only [fileEvents_append, h1]
      simp [h2, h3, h4, h5, shapeAt, fileEvents, orderEvents]
    · exact absurd hs (by simp)

/-- The goroutine cannot move in a state that satisfies the invariant: it is
either not started or blocked on a channel that is still open. -/
theorem goStep_none (p : PathName) (c : Conc) (h : StepInv p c) : goStep p c = none := by
  unfold goStep
  cases hx : c.exit with
  | some v => rfl
  | none =>
    unfold StepInv at h
    cases hpc : c.pc <;> simp only [hpc, shapeAt, Prod.mk.injEq] at h <;>
      simp [h.2.1, h.2.2.1]

theorem stepInv_step (exec : Exec) (p : PathName) (args : List String) (t : Thread)
    (c : Conc) (h : StepInv p c) : StepInv p (step exec p args t c) := by
  cases t with
  | main =>
    unfold step
    cases hs : mainStep exec p args c with
    | none => exact h
    | some c1 => exact stepInv_mainStep exec p args c c1 h hs
  | cleanup =>
    unfold step
    simp only [goStep_none p c h, Option.getD_none]
    exact h

theorem stepInv_runSched (exec : Exec) (p : PathName) (args : List String)
    (sched : List Thread) (c : Conc) (h : StepInv p c) :
    StepInv p (runSched exec p args sched c) := by
  induction sched generalizing c with
  | nil => exact h
  | cons t rest ih => exact ih _ (stepInv_step exec p args t c h)

end Calr

theorem walk_append (fs : FS) (a b pre : PathName) :
    walk fs pre (a ++ b) =
      match walk fs pre a with
      | .ok _ => walk fs (pre ++ a) b
      | .error e => .error e := by
  induction a generalizing pre with
  | nil => simp [walk]
  | cons s a ih =>
    simp only [List.cons_append, walk]
    cases hn : nodeAt fs (pre ++ [s]) with
    | none => rfl
    | some x =>
      cases x with
      | file c => rfl
      | dir m =>
        simp only [List.append_eq]
        rw [ih]
        simp

theorem walk_single (fs : FS) (pre : PathName) (s : String) :
    walk fs pre [s] =
      match nodeAt fs (pre ++ [s]) with
      | none => .error .ENOENT
      | some (.file _) => .error .ENOTDIR
      | some (.dir _) => .ok () := by
  simp only [walk]

/-- Resolving a path through all its segments succeeds exactly when the path
names a directory. -/
theorem walk_ok_iff_isDir (fs : FS) (q : PathName) :
    walk fs [] q = .ok () ↔ isDir fs q = true := by
  rw [isDir_iff]
  rcases List.eq_nil_or_concat q with h | ⟨l, s, h⟩
  · subst h
    simp [walk, stat, nodeAt]
  · rw [List.concat_eq_append] at h
    subst h
    simp only [stat_ok_iff, List.dropLast_concat]
    rw [walk_append, walk_single]
    cases hw : walk fs [] l with
    | error e => simp
    | ok u =>
      simp only [List.nil_append]
      cases hn : nodeAt fs (l ++ [s]) with
      | none => simp
      | some x => cases x <;> simp

/-- Below a regular file nothing resolves: stat answers `ENOTDIR`. -/
theorem stat_below_file (fs : FS) (d : PathName) (x : String)
    (h : isFile fs d = true) : stat fs (d ++ [x]) = .error .ENOTDIR := by
  obtain ⟨c, hc⟩ := (isFile_iff fs d).1 h
  obtain ⟨hw, hn⟩ := (stat_ok_iff fs d _).1 hc
  rcases List.eq_nil_or_concat d with hd | ⟨l, s, hd⟩
  · subst hd
    simp [nodeAt] at hn
  · rw [List.concat_eq_append] at hd
    subst hd
    rw [List.dropLast_concat] at hw
    unfold stat
    rw [List.dropLast_concat, walk_append, hw]
    simp only [List.nil_append]
    rw [walk_single, hn]

theorem isFile_not_isDir (fs : FS) (p : PathName) (h : isFile fs p = true) :
    isDir fs p = false := by
  obtain ⟨c, hc⟩ := (isFile_iff fs p).1 h
  simp [isDir, hc]

theorem lookupNode_mem (fs : FS) (p : PathName) (n : Node) (h : lookupNode fs p = some n) :
    (p, n) ∈ fs := by
  induction fs with
  | nil => simp [lookupNode] at h
  | cons e rest ih =>
    obtain ⟨r, m⟩ := e
    by_cases hr : r = p
    · subst hr
      simp only [lookupNode, if_true, Option.some.injEq] at h
      subst h
      exact List.mem_cons_self _ _
    · simp only [lookupNode, hr, if_false] at h
      exact List.mem_cons_of_mem _ (ih h)

/-- What a successful `mkdir` is. -/
theorem mkdir_ok (fs fs1 : FS) (p : PathName) (perm : Nat) (h : mkdir fs p perm = .ok fs1) :
    walk fs [] p.dropLast = .ok () ∧ nodeAt fs p = none ∧ fs1 = setNode fs p (.dir perm) := by
  unfold mkdir at h
  cases hw : walk fs [] p.dropLast with
  | error e => simp [hw] at h
  | ok u =>
    simp only [hw] at h
    cases hn : nodeAt fs p with
    | none =>
      simp only [hn] at h
      exact ⟨rfl, rfl, by injection h with h; exact h.symm⟩
    | some y => simp [hn] at h

theorem stat_mkdir_self (fs fs1 : FS) (p : PathName) (perm : Nat)
    (h : mkdir fs p perm = .ok fs1) : stat fs1 p = .ok (.dir perm) := by
  obtain ⟨hw, hn, rfl⟩ := mkdir_ok fs fs1 p perm h
  exact stat_setNode_self fs p _ (by simp [hn]) hw

theorem create_of_not_dir (fs : FS) (p : PathName) (hw : walk fs [] p.dropLast = .ok ())
    (hnd : ∀ m, nodeAt fs p ≠ some (.dir m)) :
    create fs p = .ok (setNode fs p (.file [])) := by
  unfold create
  rw [hw]
  cases hn : nodeAt fs p with
  | none => rfl
  | some y =>
    cases y with
    | dir m => exact absurd hn (hnd m)
    | file c => rfl

theorem contentOf_iff (fs : FS) (p : PathName) (c : List Nat) :
    contentOf fs p = some c ↔ stat fs p = .ok (.file c) := by
  unfold contentOf
  cases hs : stat fs p with
  | error e => simp
  | ok x => cases x <;> simp

/-- The two suffixes give different names. -/
theorem out_ne_err (n : String) : n ++ ".out" ≠ n ++ ".err" := by
  intro h
  have hd := congrArg String.data h
  rw [String.data_append, String.data_append] at hd
  have := List.append_cancel_left hd
  exact absurd this (by decide)

theorem outPath_ne_errPath (d : PathName) (n : String) :
    Fortuner.outPath d n ≠ Fortuner.errPath d n := by
  intro h
  unfold Fortuner.outPath Fortuner.errPath at h
  have := List.append_cancel_left h
  simp only [List.cons.injEq, and_true] at this
  exact out_ne_err n this

theorem dropLast_outPath (d : PathName) (n : String) :
    (Fortuner.outPath d n).dropLast = d := by
  simp [Fortuner.outPath]

theorem dropLast_errPath (d : PathName) (n : String) :
    (Fortuner.errPath d n).dropLast = d := by
  simp [Fortuner.errPath]

/-- In a tree, a path below a name that does not exist does not exist. -/
theorem nodeAt_none_of_parent_none (fs : FS) (a b : String) (hwf : WellFormed fs = true)
    (h : nodeAt fs [a] = none) : nodeAt fs [a, b] = none := by
  cases hn : nodeAt fs [a, b] with
  | none => rfl
  | some n =>
    exfalso
    have hm : ([a, b], n) ∈ fs := lookupNode_mem fs [a, b] n hn
    unfold WellFormed at hwf
    rw [List.all_eq_true] at hwf
    have hw := hwf _ hm
    simp only [List.dropLast, walk, List.nil_append, h] at hw
    exact absurd hw (by simp)

/-! ## The step model: order of the per-file events -/

namespace Calr

/-- The receive of the cleanup goroutine passes only on a closed channel. -/
theorem recv_needs_closed_channel (outfile : PathName) (c c1 : Conc)
    (hs : goStep outfile c = some c1) (hg : c.go = some .recv) : c.runEnd = true := by
  unfold goStep at hs
  cases hx : c.exit with
  | some v => simp [hx] at hs
  | none =>
    simp only [hx, hg] at hs
    cases hr : c.runEnd with
    | true => rfl
    | false => simp [hr] at hs

/-- C3: in `run_ccal`, for every schedule of the main sequence and the cleanup
goroutine, the per-file events that have happened are an initial part of
create, start, close, signal, remove: the goroutine passes its receive only
when `runEnd` is closed, a move that removes the file happens only with
`runEnd` closed, and `runEnd` is closed only after the file was closed. -/
theorem run_ccal_events_in_order (exec : Exec) (outfile : PathName) (args : List String)
    (fs0 : FS) (sched : List Thread) :
    (∀ c c1 : Conc, goStep outfile c = some c1 → c.go = some .recv → c.runEnd = true) ∧
      fileEvents outfile (runSched exec outfile args sched { fs := fs0 }).trace
        <+: orderEvents outfile ∧
      (Event.remove outfile ∈
          (step exec outfile args .cleanup
            (runSched exec outfile args sched { fs := fs0 })).trace →
        (runSched exec outfile args sched { fs := fs0 }).runEnd = true) ∧
      ((runSched exec outfile args sched { fs := fs0 }).runEnd = true →
        Event.close outfile ∈ (runSched exec outfile args sched { fs := fs0 }).trace ∧
        (runSched exec outfile args sched { fs := fs0 }).fileOpen = false) := by
  refine ⟨recv_needs_closed_channel outfile, ?_⟩
  have inv := stepInv_runSched exec outfile args sched _ (stepInv_init outfile fs0)
  generalize runSched exec outfile args sched { fs := fs0 } = c at inv
  have hgo : step exec outfile args .cleanup c = c := by
    simp [step, goStep_none outfile c inv]
  rw [hgo]
  have hmem : ∀ e, e ∈ fileEvents outfile c.trace → e ∈ c.trace := by
    intro e he
    exact (List.mem_filter.1 he).1
  have hrem : Event.remove outfile ∈ c.trace →
      Event.remove outfile ∈ fileEvents outfile c.trace := by
    intro he
    exact List.mem_filter.2 ⟨he, by simp [orderEvents]⟩
  unfold StepInv at inv
  cases hpc : c.pc <;> simp only [hpc, shapeAt, Prod.mk.injEq] at inv <;>
    obtain ⟨h1, h2, h3, h4, h5⟩ := inv <;>
    refine ⟨?_, ?_, ?_⟩
  all_goals
    first
    | (rw [h1]; exact ⟨_, rfl⟩)
    | (intro he; have hr := hrem he; rw [h1] at hr; simp at hr)
    | (intro he; rw [h3] at he; exact absurd he Bool.false_ne_true)
    | (intro _; exact ⟨hmem _ (by rw [h1]; simp), h4⟩)

/-- Witness for `run_ccal_events_in_order`: a run whose command succeeds; all
four events up to the signal have happened, in order, and the channel is
closed with the file closed before. -/
theorem run_ccal_events_in_order_witness :
    fileEvents ["tests", "expected", "2020.txt"]
        (runSched execOk ["tests", "expected", "2020.txt"] ["2020"]
          [.main, .cleanup, .main, .main, .main, .cleanup, .main, .main, .cleanup]
          { fs := fsEmptyDir }).trace
        = [.create ["tests", "expected", "2020.txt"], .start ["tests", "expected", "2020.txt"],
           .close ["tests", "expected", "2020.txt"], .signal ["tests", "expected", "2020.txt"]] ∧
      Event.close ["tests", "expected", "2020.txt"]
        ∈ (runSched execOk ["tests", "expected", "2020.txt"] ["2020"]
          [.main, .cleanup, .main, .main, .main, .cleanup, .main, .main, .cleanup]
          { fs := fsEmptyDir }).trace ∧
      (runSched execOk ["tests", "expected", "2020.txt"] ["2020"]
          [.main, .cleanup, .main, .main, .main, .cleanup, .main, .main, .cleanup]
          { fs := fsEmptyDir }).fileOpen = false :=
  ⟨by decide,
   (run_ccal_events_in_order execOk ["tests", "expected", "2020.txt"] ["2020"] fsEmptyDir
      [.main, .cleanup, .main, .main, .main, .cleanup, .main, .main, .cleanup]).2.2.2
      (by decide)⟩

/-- Once the cleanup goroutine is started it stays blocked on its receive: in
every reachable state where it exists, the channel is open, the counter is 1,
the main sequence is at `log.Fatal` and no remove has happened. -/
theorem cleanup_stays_blocked (exec : Exec) (outfile : PathName) (args : List String)
    (fs0 : FS) (sched : List Thread) (g : GoPc)
    (h : (runSched exec outfile args sched { fs := fs0 }).go = some g) :
    g = .recv ∧ (runSched exec outfile args sched { fs := fs0 }).runEnd = false ∧
      (runSched exec outfile args sched { fs := fs0 }).wg = 1 ∧
      (runSched exec outfile args sched { fs := fs0 }).pc = .fatal := by
  have inv := stepInv_runSched exec outfile args sched _ (stepInv_init outfile fs0)
  generalize runSched exec outfile args sched { fs := fs0 } = c at inv h
  unfold StepInv at inv
  cases hpc : c.pc <;> simp only [hpc, shapeAt, Prod.mk.injEq] at inv <;>
    obtain ⟨h1, h2, h3, h4, h5⟩ := inv <;> rw [h2] at h <;> simp at h
  exact ⟨h.symm, h3, h5, rfl⟩

end Calr

/-! ## Failing runs, evaluated -/

/-- C2, at a failing input: `ccal` exits with status 1 on the first plan
entry of calr. The process ends with status 1 while the counter `fileDelete`
is 1, the cleanup goroutine is still blocked and the file is still there; in
the step model this holds for every schedule that reaches the exit. -/
theorem calr_exits_with_cleanup_pending :
    (Calr.main execExitOne { fs := fsEmptyDir }).exitCode = 1 ∧
      (Calr.main execExitOne { fs := fsEmptyDir }).proc.wg = 1 ∧
      (Calr.main execExitOne { fs := fsEmptyDir }).proc.parked
        = [["tests", "expected", "2020.txt"]] ∧
      isFile (Calr.main execExitOne { fs := fsEmptyDir }).proc.fs
        ["tests", "expected", "2020.txt"] = true ∧
      Event.remove ["tests", "expected", "2020.txt"]
        ∉ (Calr.main execExitOne { fs := fsEmptyDir }).proc.trace ∧
      (Calr.runSched execExitOne ["tests", "expected", "2020.txt"] ["2020"]
          [.main, .main, .main, .main, .main, .main, .cleanup, .main, .cleanup]
          { fs := fsEmptyDir }).exit = some 1 ∧
      ∀ sched : List Calr.Thread,
        (Calr.runSched execExitOne ["tests", "expected", "2020.txt"] ["2020"] sched
          { fs := fsEmptyDir }).go ≠ none →
        (Calr.runSched execExitOne ["tests", "expected", "2020.txt"] ["2020"] sched
          { fs := fsEmptyDir }).wg = 1 := by
  refine ⟨by decide, by decide, by decide, by decide, by decide, by decide, ?_⟩
  intro sched h
  cases hg : (Calr.runSched execExitOne ["tests", "expected", "2020.txt"] ["2020"] sched
      { fs := fsEmptyDir }).go with
  | none => exact absurd hg h
  | some g => exact (Calr.cleanup_stays_blocked _ _ _ _ sched g hg).2.2.1

/-- C10, at a failing input: fortuner is run where `tests` is a regular file,
so stat of `tests/expected` fails with `ENOTDIR`. The run does not end through
`log.Fatal`: `info.IsDir()` is reached with a nil `info` and the program
panics (status 2). -/
theorem fortuner_stat_error_reaches_nil_info :
    stat fsTestsIsFile ["tests", "expected"] = .error .ENOTDIR ∧
      Fortuner.main execOk (.ok []) { fs := fsTestsIsFile }
        = .halt 2 { fs := fsTestsIsFile, trace := [.goPanic] } ∧
      Calr.main execOk { fs := fsTestsIsFile }
        = .halt 1 { fs := fsTestsIsFile, trace := [.logFatal] } := by
  refine ⟨by rfl, by decide, by decide⟩

/-! ## What the two runners return, case by case -/

namespace Fortuner

theorem makeOutFile_create_out_fails (exec : Exec) (d : PathName) (n : String)
    (args : List String) (s : Proc) (e : Errno) (h1 : create s.fs (outPath d n) = .error e) :
    makeOutFile exec d n args s = .halt 1 (s.log [.logFatal]) := by
  simp only [makeOutFile, h1]

theorem makeOutFile_create_err_fails (exec : Exec) (d : PathName) (n : String)
    (args : List String) (s : Proc) (fs1 : FS) (e : Errno)
    (h1 : create s.fs (outPath d n) = .ok fs1) (h2 : create fs1 (errPath d n) = .error e) :
    makeOutFile exec d n args s
      = .halt 1 { s with fs := fs1,
                         trace := s.trace ++ [.create (outPath d n), .logFatal] } := by
  simp [makeOutFile, h1, h2, Proc.log]

theorem makeOutFile_start_fails (exec : Exec) (d : PathName) (n : String)
    (args : List String) (s : Proc) (fs1 fs2 : FS)
    (h1 : create s.fs (outPath d n) = .ok fs1) (h2 : create fs1 (errPath d n) = .ok fs2)
    (hx : exec "fortune" args = .startError) :
    makeOutFile exec d n args s
      = .halt 1 { s with fs := fs2,
                         trace := s.trace ++ [.create (outPath d n), .create (errPath d n),
                           .println (entryKey d n), .start (entryKey d n),
                           .startFailed (entryKey d n), .logFatal] } := by
  simp [makeOutFile, h1, h2, hx, Proc.log]

theorem makeOutFile_exited (exec : Exec) (d : PathName) (n : String)
    (args : List String) (s : Proc) (fs1 fs2 : FS) (code : Nat) (out err : List Nat)
    (h1 : create s.fs (outPath d n) = .ok fs1) (h2 : create fs1 (errPath d n) = .ok fs2)
    (hx : exec "fortune" args = .exited code out err) :
    makeOutFile exec d n args s
      = .cont { s with fs := writeFile (writeFile fs2 (outPath d n) out) (errPath d n) err,
                       trace := s.trace ++ [.create (outPath d n), .create (errPath d n),
                           .println (entryKey d n), .start (entryKey d n),
                           .exited (entryKey d n) code] ++
                         (if code = 0 then [] else [.logPrintln]) ++
                         [.close (errPath d n), .close (outPath d n)] } := by
  by_cases hc : code = 0 <;> simp [makeOutFile, h1, h2, hx, Proc.log, hc]

end Fortuner

namespace Calr

theorem run_ccal_exists (exec : Exec) (p : PathName) (args : List String) (s : Proc)
    (n : Node) (h : stat s.fs p = .ok n) :
    run_ccal exec p args s = .halt 1 (s.log [.logFatal]) := by
  simp only [run_ccal, h]

theorem run_ccal_stat_fails (exec : Exec) (p : PathName) (args : List String) (s : Proc)
    (e : Errno) (h : stat s.fs p = .error e) (he : e ≠ .ENOENT) :
    run_ccal exec p args s = .halt 1 (s.log [.logFatal]) := by
  cases e
  · exact absurd rfl he
  all_goals simp only [run_ccal, h]

theorem run_ccal_create_fails (exec : Exec) (p : PathName) (args : List String) (s : Proc)
    (e : Errno) (h : stat s.fs p = .error .ENOENT) (h1 : create s.fs p = .error e) :
    run_ccal exec p args s = .halt 1 (s.log [.logFatal]) := by
  simp only [run_ccal, h, h1]

theorem run_ccal_success (exec : Exec) (p : PathName) (args : List String) (s : Proc)
    (fs1 : FS) (out err : List Nat) (h : stat s.fs p = .error .ENOENT)
    (h1 : create s.fs p = .ok fs1) (hx : exec "ccal" args = .exited 0 out err) :
    run_ccal exec p args s
      = .cont { s with fs := writeFile fs1 p out,
                       trace := s.trace ++ [.create p, .println p, .start p,
                         .exited p 0, .close p, .signal p] } := by
  simp [run_ccal, h, h1, hx, Proc.log]

theorem run_ccal_exit_nonzero (exec : Exec) (p : PathName) (args : List String) (s : Proc)
    (fs1 : FS) (code : Nat) (out err : List Nat) (h : stat s.fs p = .error .ENOENT)
    (h1 : create s.fs p = .ok fs1) (hx : exec "ccal" args = .exited (code + 1) out err) :
    run_ccal exec p args s
      = .halt 1 { fs := writeFile fs1 p out, wg := s.wg + 1, parked := p :: s.parked,
                  trace := s.trace ++ [.create p, .println p, .start p,
                    .exited p (code + 1), .wgAdd, .spawn p, .logFatal] } := by
  simp [run_ccal, h, h1, hx, Proc.log]

theorem run_ccal_start_fails (exec : Exec) (p : PathName) (args : List String) (s : Proc)
    (fs1 : FS) (h : stat s.fs p = .error .ENOENT)
    (h1 : create s.fs p = .ok fs1) (hx : exec "ccal" args = .startError) :
    run_ccal exec p args s
      = .halt 1 { fs := fs1, wg := s.wg + 1, parked := p :: s.parked,
                  trace := s.trace ++ [.create p, .println p, .start p,
                    .startFailed p, .wgAdd, .spawn p, .logFatal] } := by
  simp [run_ccal, h, h1, hx, Proc.log]

end Calr

/-! ## The output path is not a directory -/

/-- C5, counterexample: with `tests/expected` a regular file, the directory
reset of calr completes without any error; the fatal exit comes from the
first call of `run_ccal`, whose stat of the output file fails. -/
theorem calr_reset_accepts_regular_file :
    isFile fsOutIsFile Calr.OUTDIR = true ∧
      Calr.resetDir { fs := fsOutIsFile } = .cont { fs := fsOutIsFile } ∧
      Calr.run_ccal execOk (Calr.OUTDIR ++ ["2020.txt"]) ["2020"] { fs := fsOutIsFile }
        = .halt 1 { fs := fsOutIsFile, trace := [.logFatal] } := by
  refine ⟨by decide, by decide, by decide⟩

/-- C5, amended: when the output path is a regular file, fortuner ends with
status 1 inside the directory reset, before any plan entry, with the file
system unchanged; calr completes its reset without error and ends with
status 1 in the first call of `run_ccal`, at the stat of the output file,
before any file is created or any command started. -/
theorem output_path_is_regular_file (exec : Exec) :
    (∀ (wd : PathName) (s : Proc), isFile s.fs (wd ++ ["tests", "expected"]) = true →
        Fortuner.resetDir (wd ++ ["tests", "expected"]) s = .halt 1 (s.log [.logFatal]) ∧
        Fortuner.main exec (.ok wd) s = .halt 1 (s.log [.logFatal])) ∧
      (∀ s : Proc, isFile s.fs Calr.OUTDIR = true →
        Calr.resetDir s = .cont s ∧
        Calr.run_ccal exec (Calr.OUTDIR ++ ["2020.txt"]) ["2020"] s
          = .halt 1 (s.log [.logFatal]) ∧
        Calr.main exec s = .halt 1 (s.log [.logFatal])) := by
  constructor
  · intro wd s h
    obtain ⟨c, hc⟩ := (isFile_iff _ _).1 h
    have hr : Fortuner.resetDir (wd ++ ["tests", "expected"]) s
        = .halt 1 (s.log [.logFatal]) := by
      simp [Fortuner.resetDir, Fortuner.ensureDir, hc, Run.andThen]
    refine ⟨hr, ?_⟩
    simp only [Fortuner.main, hr, Run.andThen]
  · intro s h
    obtain ⟨c, hc⟩ := (isFile_iff _ _).1 h
    have he : Calr.ensureDir s = .cont s := by
      simp [Calr.ensureDir, hc]
    have hr : Calr.resetDir s = .cont s := by
      simp only [Calr.resetDir, he, Run.andThen]
      exact clearDir_of_not_isDir _ s (isFile_not_isDir _ _ h)
    have hrun : Calr.run_ccal exec (Calr.OUTDIR ++ ["2020.txt"]) ["2020"] s
        = .halt 1 (s.log [.logFatal]) := by
      simp [Calr.run_ccal, stat_below_file s.fs Calr.OUTDIR "2020.txt" h]
    refine ⟨hr, hrun, ?_⟩
    simp only [Calr.main, hr, Run.andThen, Calr.plan, Calr.runPlan, hrun]

/-- Witness for `output_path_is_regular_file`: both programs on the sample
where `tests/expected` is a regular file. -/
theorem output_path_is_regular_file_witness :
    Fortuner.main execOk (.ok []) { fs := fsOutIsFile }
        = .halt 1 (Proc.log { fs := fsOutIsFile } [.logFatal]) ∧
      Calr.main execOk { fs := fsOutIsFile }
        = .halt 1 (Proc.log { fs := fsOutIsFile } [.logFatal]) :=
  ⟨((output_path_is_regular_file execOk).1 [] { fs := fsOutIsFile } (by decide)).2,
   ((output_path_is_regular_file execOk).2 { fs := fsOutIsFile } (by decide)).2.2⟩

/-! ## A command that fails -/

/-- C6, counterexample: in fortuner every command exits with status 1, yet
the run goes on to the later entries and `main` returns, exit status 0. -/
theorem fortuner_goes_on_after_failed_command :
    execExitOne "fortune" ["-m", "Yogi Berra", "/tests/inputs/literature", "/tests/inputs/quotes"]
        = .exited 1 [7] [] ∧
      Event.exited ["tests", "expected", "berra_cap"] 1
        ∈ (Fortuner.main execExitOne (.ok []) { fs := fsEmptyDir }).proc.trace ∧
      Event.start ["tests", "expected", "twain_cap"]
        ∈ (Fortuner.main execExitOne (.ok []) { fs := fsEmptyDir }).proc.trace ∧
      (Fortuner.main execExitOne (.ok []) { fs := fsEmptyDir }).exitCode = 0 := by
  refine ⟨rfl, by decide, by decide, by decide⟩

/-- C6, amended: in calr a command that fails to start or exits non-zero ends
the process with status 1 and no later entry runs; in fortuner a command that
fails to start does the same, while a command that exits non-zero is printed
to the log and the run goes on with the next entry. -/
theorem failed_command_outcome (exec : Exec) :
    (∀ (e : PathName × List String) (rest : List (PathName × List String)) (s : Proc),
        (∀ out err, exec "ccal" e.2 ≠ .exited 0 out err) →
        (Calr.runPlan exec (e :: rest) s).exitCode = 1 ∧
        Calr.runPlan exec (e :: rest) s = Calr.run_ccal exec e.1 e.2 s) ∧
      (∀ (d : PathName) (e : String × List String) (rest : List (String × List String))
          (s : Proc), exec "fortune" e.2 = .startError →
        (Fortuner.runPlan exec d (e :: rest) s).exitCode = 1 ∧
        Fortuner.runPlan exec d (e :: rest) s = Fortuner.makeOutFile exec d e.1 e.2 s) ∧
      (∀ (d : PathName) (e : String × List String) (rest : List (String × List String))
          (s : Proc) (code : Nat) (out err : List Nat) (fs1 fs2 : FS),
        exec "fortune" e.2 = .exited (code + 1) out err →
        create s.fs (Fortuner.outPath d e.1) = .ok fs1 →
        create fs1 (Fortuner.errPath d e.1) = .ok fs2 →
        ∃ s1, Fortuner.makeOutFile exec d e.1 e.2 s = .cont s1 ∧
          Event.logPrintln ∈ s1.trace ∧
          Fortuner.runPlan exec d (e :: rest) s = Fortuner.runPlan exec d rest s1) := by
  refine ⟨?_, ?_, ?_⟩
  · intro e rest s hf
    have hh : ∃ s1, Calr.run_ccal exec e.1 e.2 s = .halt 1 s1 := by
      unfold Calr.run_ccal
      cases hst : stat s.fs e.1 with
      | ok x => exact ⟨_, rfl⟩
      | error er =>
        cases er
        · cases hcr : create s.fs e.1 with
          | error e2 => exact ⟨_, rfl⟩
          | ok fs1 =>
            cases hex : exec "ccal" e.2 with
            | startError => exact ⟨_, rfl⟩
            | exited code out err =>
              cases code with
              | zero => exact absurd hex (hf out err)
              | succ k => exact ⟨_, rfl⟩
        all_goals exact ⟨_, rfl⟩
    obtain ⟨s1, h1⟩ := hh
    simp [Calr.runPlan, h1, Run.andThen, Run.exitCode]
  · intro d e rest s hf
    have hh : ∃ s1, Fortuner.makeOutFile exec d e.1 e.2 s = .halt 1 s1 := by
      unfold Fortuner.makeOutFile
      cases hc1 : create s.fs (Fortuner.outPath d e.1) with
      | error e2 => exact ⟨_, rfl⟩
      | ok fs1 =>
        simp only [Proc.log]
        cases hc2 : create fs1 (Fortuner.errPath d e.1) with
        | error e2 => exact ⟨_, rfl⟩
        | ok fs2 =>
          simp only [hf]
          exact ⟨_, rfl⟩
    obtain ⟨s1, h1⟩ := hh
    simp [Fortuner.runPlan, h1, Run.andThen, Run.exitCode]
  · intro d e rest s code out err fs1 fs2 hex hc1 hc2
    have hm := Fortuner.makeOutFile_exited exec d e.1 e.2 s fs1 fs2 (code + 1) out err
      hc1 hc2 hex
    refine ⟨_, hm, ?_, ?_⟩
    · simp
    · simp only [Fortuner.runPlan, hm, Run.andThen]

/-- Witness for `failed_command_outcome`: the first entry of each plan with a
command that exits with status 1, and fortuner with a command that cannot be
started. -/
theorem failed_command_outcome_witness :
    (Calr.runPlan execExitOne Calr.plan { fs := fsEmptyDir }).exitCode = 1 ∧
      (Fortuner.runPlan execNoStart ["tests", "expected"]
        [("berra_cap", []), ("twain_cap", [])] { fs := fsEmptyDir }).exitCode = 1 ∧
      ∃ s1, Fortuner.makeOutFile execExitOne ["tests", "expected"] "berra_cap" []
          { fs := fsEmptyDir } = .cont s1 ∧ Event.logPrintln ∈ s1.trace :=
  ⟨((failed_command_outcome execExitOne).1 (Calr.OUTDIR ++ ["2020.txt"], ["2020"]) _
      { fs := fsEmptyDir } (by intro out err h; cases h)).1,
   ((failed_command_outcome execNoStart).2.1 ["tests", "expected"] ("berra_cap", [])
      [("twain_cap", [])] { fs := fsEmptyDir } rfl).1,
   let ⟨s1, h1, h2, _⟩ := (failed_command_outcome execExitOne).2.2 ["tests", "expected"]
      ("berra_cap", []) [] { fs := fsEmptyDir } 0 [7] [] _ _ rfl rfl rfl
   ⟨s1, h1, h2⟩⟩

/-! ## Creating the output files -/

/-- C8, counterexample: `run_ccal` on an output file that exists already ends
the process with status 1; the file keeps its bytes and no command is
started. -/
theorem run_ccal_refuses_existing_file :
    contentOf fsHasOutput ["tests", "expected", "2020.txt"] = some [4, 5] ∧
      Calr.run_ccal execOk ["tests", "expected", "2020.txt"] ["2020"] { fs := fsHasOutput }
        = .halt 1 { fs := fsHasOutput, trace := [.logFatal] } := by
  refine ⟨by rfl, by decide⟩

/-- C8, amended: both runners create each redirected file before the command
is started and end the process with status 1 when a creation fails.
`makeOutFile` of fortuner creates with create-or-truncate: a file that exists
is emptied, the command is run and the file holds what the command wrote.
`run_ccal` of calr creates the file only when stat says the path does not
exist: when something is there it ends the process with status 1, the file
system is unchanged and no command is started. -/
theorem output_file_creation (exec : Exec) :
    (∀ (d : PathName) (n : String) (args : List String) (s : Proc),
        (∃ s1, Fortuner.makeOutFile exec d n args s = .halt 1 s1 ∧
          (s1.trace = s.trace ++ [.logFatal] ∨
           s1.trace = s.trace ++ [.create (Fortuner.outPath d n), .logFatal])) ∨
        (∃ l, (Fortuner.makeOutFile exec d n args s).proc.trace
          = s.trace ++ [.create (Fortuner.outPath d n), .create (Fortuner.errPath d n),
              .println (Fortuner.entryKey d n), .start (Fortuner.entryKey d n)] ++ l)) ∧
      (∀ (d : PathName) (n : String) (args : List String) (s : Proc)
          (code : Nat) (out err : List Nat),
        isFile s.fs (Fortuner.outPath d n) = true →
        isDir s.fs (Fortuner.errPath d n) = false →
        exec "fortune" args = .exited code out err →
        ∃ s1, Fortuner.makeOutFile exec d n args s = .cont s1 ∧
          Event.start (Fortuner.entryKey d n) ∈ s1.trace ∧
          contentOf s1.fs (Fortuner.outPath d n) = some out) ∧
      (∀ (p : PathName) (args : List String) (s : Proc),
        Calr.run_ccal exec p args s = .halt 1 (s.log [.logFatal]) ∨
        (∃ l, (Calr.run_ccal exec p args s).proc.trace
          = s.trace ++ [.create p, .println p, .start p] ++ l)) ∧
      (∀ (p : PathName) (args : List String) (s : Proc) (x : Node),
        stat s.fs p = .ok x →
        Calr.run_ccal exec p args s = .halt 1 (s.log [.logFatal])) := by
  refine ⟨?_, ?_, ?_, ?_⟩
  · intro d n args s
    cases h1 : create s.fs (Fortuner.outPath d n) with
    | error e =>
      left
      exact ⟨_, Fortuner.makeOutFile_create_out_fails exec d n args s e h1,
        Or.inl (by simp [Proc.log])⟩
    | ok fs1 =>
      cases h2 : create fs1 (Fortuner.errPath d n) with
      | error e =>
        left
        exact ⟨_, Fortuner.makeOutFile_create_err_fails exec d n args s fs1 e h1 h2,
          Or.inr rfl⟩
      | ok fs2 =>
        right
        cases hx : exec "fortune" args with
        | startError =>
          rw [Fortuner.makeOutFile_start_fails exec d n args s fs1 fs2 h1 h2 hx]
          exact ⟨[.startFailed (Fortuner.entryKey d n), .logFatal], by simp [Run.proc]⟩
        | exited code out err =>
          rw [Fortuner.makeOutFile_exited exec d n args s fs1 fs2 code out err h1 h2 hx]
          exact ⟨_, by simp only [Run.proc, List.append_assoc]; rfl⟩
  · intro d n args s code out err hf hd hx
    obtain ⟨c, hc⟩ := (isFile_iff _ _).1 hf
    obtain ⟨hw, hn⟩ := (stat_ok_iff _ _ _).1 hc
    have hnd1 : ∀ m, nodeAt s.fs (Fortuner.outPath d n) ≠ some (.dir m) := by simp [hn]
    have h1 := create_of_not_dir s.fs _ hw hnd1
    have hw2 : walk (setNode s.fs (Fortuner.outPath d n) (.file [])) []
        (Fortuner.errPath d n).dropLast = .ok () := by
      rw [dropLast_errPath]
      rw [dropLast_outPath] at hw
      exact walk_setNode _ _ _ hnd1 _ _ hw
    have hnd2 : ∀ m, nodeAt (setNode s.fs (Fortuner.outPath d n) (.file []))
        (Fortuner.errPath d n) ≠ some (.dir m) := by
      intro m hm
      rw [nodeAt_setNode_ne _ _ _ _ (outPath_ne_errPath d n).symm] at hm
      have hs : stat s.fs (Fortuner.errPath d n) = .ok (.dir m) := by
        rw [stat_ok_iff]
        refine ⟨?_, hm⟩
        rw [dropLast_errPath]
        rw [dropLast_outPath] at hw
        exact hw
      simp [isDir, hs] at hd
    have h2 := create_of_not_dir _ _ hw2 hnd2
    have hm := Fortuner.makeOutFile_exited exec d n args s _ _ code out err h1 h2 hx
    refine ⟨_, hm, by simp, ?_⟩
    rw [contentOf_iff]
    apply stat_writeFile_of_ne _ _ _ _ _ (outPath_ne_errPath d n)
    have h3 := stat_writeFile_self _ (Fortuner.outPath d n) out []
      (stat_create_of_ne _ _ _ _ _ h2 (outPath_ne_errPath d n) (stat_create_self _ _ _ h1))
    simpa using h3
  · intro p args s
    cases hst : stat s.fs p with
    | ok x => exact Or.inl (Calr.run_ccal_exists exec p args s x hst)
    | error e =>
      by_cases he : e = .ENOENT
      · subst he
        cases h1 : create s.fs p with
        | error e2 => exact Or.inl (Calr.run_ccal_create_fails exec p args s e2 hst h1)
        | ok fs1 =>
          right
          cases hx : exec "ccal" args with
          | startError =>
            rw [Calr.run_ccal_start_fails exec p args s fs1 hst h1 hx]
            exact ⟨[.startFailed p, .wgAdd, .spawn p, .logFatal], by simp [Run.proc]⟩
          | exited code out err =>
            cases code with
            | zero =>
              rw [Calr.run_ccal_success exec p args s fs1 out err hst h1 hx]
              exact ⟨[.exited p 0, .close p, .signal p], by simp [Run.proc]⟩
            | succ k =>
              rw [Calr.run_ccal_exit_nonzero exec p args s fs1 k out err hst h1 hx]
              exact ⟨[.exited p (k + 1), .wgAdd, .spawn p, .logFatal], by simp [Run.proc]⟩
      · exact Or.inl (Calr.run_ccal_stat_fails exec p args s e hst he)
  · intro p args s x hx
    exact Calr.run_ccal_exists exec p args s x hx

/-- Witness for `output_file_creation`: fortuner truncates a stale result and
runs the command; calr stops at the file that exists. -/
theorem output_file_creation_witness :
    (∃ s1, Fortuner.makeOutFile execOk ["tests", "expected"] "old" [] { fs := fsStale }
        = .cont s1 ∧
      Event.start (Fortuner.entryKey ["tests", "expected"] "old") ∈ s1.trace ∧
      contentOf s1.fs (Fortuner.outPath ["tests", "expected"] "old") = some [1, 2]) ∧
      Calr.run_ccal execOk ["tests", "expected", "2020.txt"] ["2020"] { fs := fsHasOutput }
        = .halt 1 (Proc.log { fs := fsHasOutput } [.logFatal]) :=
  ⟨(output_file_creation execOk).2.1 ["tests", "expected"] "old" [] { fs := fsStale }
      0 [1, 2] [] (by decide) (by decide) rfl,
   (output_file_creation execOk).2.2.2 ["tests", "expected", "2020.txt"] ["2020"]
      { fs := fsHasOutput } (.file [4, 5]) (by rfl)⟩

/-! ## Making and clearing the output directory -/

theorem isDirWithPerm_iff (fs : FS) (p : PathName) (perm : Nat) :
    isDirWithPerm fs p perm = true ↔ stat fs p = .ok (.dir perm) := by
  unfold isDirWithPerm
  cases hs : stat fs p with
  | error e => simp
  | ok x =>
    cases x with
    | file c => simp
    | dir m =>
      simp only [decide_eq_true_eq, Except.ok.injEq, Node.dir.injEq]

/-- In calr, when stat of `tests/expected` says not-found in a well-formed
file system, `MkdirAll` succeeds and makes what is missing with mode 0755. -/
theorem calr_mkdirAll_spec (fs : FS) (hwf : WellFormed fs = true)
    (h : stat fs Calr.OUTDIR = .error .ENOENT) :
    ∃ fs1, mkdirAll fs Calr.OUTDIR 0o755 = .ok fs1 ∧
      stat fs1 Calr.OUTDIR = .ok (.dir 0o755) ∧ isDir fs1 ["tests"] = true ∧
      (isDir fs ["tests"] = false → stat fs1 ["tests"] = .ok (.dir 0o755)) := by
  have hne : (["tests"] : PathName) ≠ ["tests", "expected"] := by decide
  cases ht : nodeAt fs ["tests"] with
  | none =>
    have ho := nodeAt_none_of_parent_none fs "tests" "expected" hwf ht
    have hnd1 : ∀ m, nodeAt fs ["tests"] ≠ some (.dir m) := by simp [ht]
    have hs1 : stat (setNode fs ["tests"] (.dir 0o755)) ["tests"] = .ok (.dir 0o755) :=
      stat_setNode_self fs ["tests"] _ hnd1 rfl
    have ho1 : nodeAt (setNode fs ["tests"] (.dir 0o755)) ["tests", "expected"] = none := by
      rw [nodeAt_setNode_ne _ _ _ _ hne.symm, ho]
    have hnd2 : ∀ m, nodeAt (setNode fs ["tests"] (.dir 0o755)) ["tests", "expected"]
        ≠ some (.dir m) := by simp [ho1]
    have hw2 : walk (setNode fs ["tests"] (.dir 0o755)) [] ["tests"] = .ok () :=
      (walk_ok_iff_isDir _ _).2 ((isDir_iff _ _).2 ⟨_, hs1⟩)
    refine ⟨setNode (setNode fs ["tests"] (.dir 0o755)) ["tests", "expected"] (.dir 0o755),
      ?_, ?_, ?_, ?_⟩
    · simp only [mkdirAll, Calr.OUTDIR, mkdirAllFrom, List.nil_append, ht,
        List.singleton_append, ho1]
    · exact stat_setNode_self _ _ _ hnd2 hw2
    · exact (isDir_iff _ _).2 ⟨_, stat_setNode_of_ne _ _ _ _ _ hnd2 hne hs1⟩
    · intro _
      exact stat_setNode_of_ne _ _ _ _ _ hnd2 hne hs1
  | some x =>
    cases x with
    | file c =>
      simp [stat, Calr.OUTDIR, walk, ht] at h
    | dir m =>
      have hw : walk fs [] ["tests"] = .ok () := by simp [walk, ht]
      have ho : nodeAt fs ["tests", "expected"] = none := by
        cases hn : nodeAt fs ["tests", "expected"] with
        | none => rfl
        | some y => simp [stat, Calr.OUTDIR, walk, ht, hn] at h
      have hnd : ∀ k, nodeAt fs ["tests", "expected"] ≠ some (.dir k) := by simp [ho]
      have hd : isDir fs ["tests"] = true := (walk_ok_iff_isDir _ _).1 hw
      obtain ⟨k, hk⟩ := (isDir_iff _ _).1 hd
      refine ⟨setNode fs ["tests", "expected"] (.dir 0o755), ?_, ?_, ?_, ?_⟩
      · simp only [mkdirAll, Calr.OUTDIR, mkdirAllFrom, List.nil_append, ht,
          List.singleton_append, ho]
      · exact stat_setNode_self _ _ _ hnd hw
      · exact (isDir_iff _ _).2 ⟨_, stat_setNode_of_ne _ _ _ _ _ hnd hne hk⟩
      · intro hf
        rw [hd] at hf
        exact absurd hf (by decide)

/-- C9, counterexample: fortuner started where neither `tests` nor
`tests/expected` exists. Stat says not-found, `os.Mkdir` fails because the
parent is missing and the run ends with status 1 with nothing created; calr on
the same file system makes both directories. -/
theorem fortuner_needs_parent_directory :
    stat fsNoTests ["tests", "expected"] = .error .ENOENT ∧
      Fortuner.main execOk (.ok []) { fs := fsNoTests }
        = .halt 1 { fs := fsNoTests, trace := [.logFatal] } ∧
      isDirWithPerm (Calr.resetDir { fs := fsNoTests }).proc.fs Calr.OUTDIR 0o755 = true := by
  refine ⟨by rfl, by decide, by decide⟩

/-- C9, amended: when stat says the output directory does not exist, calr
(`os.MkdirAll`) makes it together with a missing parent `tests`, each with the
mode 0755 it asks for, and goes on; fortuner (`os.Mkdir`) makes it with mode
0755 when its parent is a directory, and ends with status 1 when the parent
is missing. -/
theorem missing_output_directory :
    (∀ s : Proc, WellFormed s.fs = true → stat s.fs Calr.OUTDIR = .error .ENOENT →
        ∃ s1, Calr.ensureDir s = .cont s1 ∧
          isDirWithPerm s1.fs Calr.OUTDIR 0o755 = true ∧ isDir s1.fs ["tests"] = true ∧
          (isDir s.fs ["tests"] = false → isDirWithPerm s1.fs ["tests"] 0o755 = true)) ∧
      (∀ (wd : PathName) (s : Proc),
        stat s.fs (wd ++ ["tests", "expected"]) = .error .ENOENT →
        (isDir s.fs (wd ++ ["tests"]) = true →
          ∃ s1, Fortuner.ensureDir (wd ++ ["tests", "expected"]) s = .cont s1 ∧
            isDirWithPerm s1.fs (wd ++ ["tests", "expected"]) 0o755 = true) ∧
        (isDir s.fs (wd ++ ["tests"]) = false →
          Fortuner.ensureDir (wd ++ ["tests", "expected"]) s
            = .halt 1 (s.log [.logFatal]))) := by
  constructor
  · intro s hwf h
    obtain ⟨fs1, h1, h2, h3, h4⟩ := calr_mkdirAll_spec s.fs hwf h
    refine ⟨{ s with fs := fs1 }.log [.mkdir Calr.OUTDIR], ?_, ?_, h3, ?_⟩
    · simp only [Calr.ensureDir, h, h1]
    · exact (isDirWithPerm_iff _ _ _).2 h2
    · intro hf
      exact (isDirWithPerm_iff _ _ _).2 (h4 hf)
  · intro wd s h
    have hdl : (wd ++ ["tests", "expected"]).dropLast = wd ++ ["tests"] := by
      have : wd ++ ["tests", "expected"] = (wd ++ ["tests"]) ++ ["expected"] := by simp
      rw [this, List.dropLast_concat]
    constructor
    · intro hd
      have hw := (walk_ok_iff_isDir _ _).2 hd
      have hn : nodeAt s.fs (wd ++ ["tests", "expected"]) = none := by
        cases hn : nodeAt s.fs (wd ++ ["tests", "expected"]) with
        | none => rfl
        | some y => simp [stat, hdl, hw, hn] at h
      have hmk : mkdir s.fs (wd ++ ["tests", "expected"]) 0o755
          = .ok (setNode s.fs (wd ++ ["tests", "expected"]) (.dir 0o755)) := by
        simp only [mkdir, hdl, hw, hn]
      refine ⟨{ s with fs := setNode s.fs (wd ++ ["tests", "expected"]) (.dir 0o755) }.log
        [.mkdir (wd ++ ["tests", "expected"])], ?_, ?_⟩
      · simp only [Fortuner.ensureDir, h, hmk]
      · exact (isDirWithPerm_iff _ _ _).2 (stat_mkdir_self _ _ _ _ hmk)
    · intro hd
      have hmk : ∃ e, mkdir s.fs (wd ++ ["tests", "expected"]) 0o755 = .error e := by
        cases hw : walk s.fs [] (wd ++ ["tests"]) with
        | ok u =>
          rw [(walk_ok_iff_isDir _ _).1 hw] at hd
          exact absurd hd (by decide)
        | error e => exact ⟨e, by simp only [mkdir, hdl, hw]⟩
      obtain ⟨e, he⟩ := hmk
      simp only [Fortuner.ensureDir, h, he]

/-- Witness for `missing_output_directory`: calr where nothing exists, fortuner
where `tests` exists and where it does not. -/
theorem missing_output_directory_witness :
    (∃ s1, Calr.ensureDir { fs := fsNoTests } = .cont s1 ∧
        isDirWithPerm s1.fs Calr.OUTDIR 0o755 = true ∧ isDir s1.fs ["tests"] = true ∧
        (isDir fsNoTests ["tests"] = false → isDirWithPerm s1.fs ["tests"] 0o755 = true)) ∧
      (∃ s1, Fortuner.ensureDir ([] ++ ["tests", "expected"])
          { fs := [(["tests"], .dir 0o755)] } = .cont s1 ∧
        isDirWithPerm s1.fs ([] ++ ["tests", "expected"]) 0o755 = true) ∧
      Fortuner.ensureDir ([] ++ ["tests", "expected"]) { fs := fsNoTests }
        = .halt 1 (Proc.log { fs := fsNoTests } [.logFatal]) :=
  ⟨missing_output_directory.1 { fs := fsNoTests } (by decide) (by rfl),
   (missing_output_directory.2 [] { fs := [(["tests"], .dir 0o755)] } (by rfl)).1 (by decide),
   (missing_output_directory.2 [] { fs := fsNoTests } (by rfl)).2 (by decide)⟩

/-- When `MkdirAll` succeeds the path resolves as a directory. -/
theorem walk_mkdirAllFrom (perm : Nat) (rest : PathName) (fs fs1 : FS) (pre : PathName)
    (hw : walk fs [] pre = .ok ()) (h : mkdirAllFrom perm fs pre rest = .ok fs1) :
    walk fs1 [] (pre ++ rest) = .ok () := by
  induction rest generalizing fs pre with
  | nil =>
    simp only [mkdirAllFrom, Except.ok.injEq] at h
    subst h
    simpa using hw
  | cons s rest ih =>
    unfold mkdirAllFrom at h
    have hcat : pre ++ s :: rest = (pre ++ [s]) ++ rest := by simp
    rw [hcat]
    cases hn : nodeAt fs (pre ++ [s]) with
    | none =>
      simp only [hn] at h
      have hnd : ∀ m, nodeAt fs (pre ++ [s]) ≠ some (.dir m) := by simp [hn]
      apply ih _ _ _ h
      rw [walk_append, walk_setNode fs _ _ hnd _ _ hw]
      simp only [List.nil_append]
      rw [walk_single, nodeAt_setNode_self _ _ _ (by simp)]
    | some x =>
      cases x with
      | file c => simp [hn] at h
      | dir m =>
        simp only [hn] at h
        apply ih _ _ _ h
        rw [walk_append, hw]
        simp only [List.nil_append]
        rw [walk_single, hn]

theorem isDir_mkdirAll (fs fs1 : FS) (p : PathName) (perm : Nat)
    (h : mkdirAll fs p perm = .ok fs1) : isDir fs1 p = true := by
  have := walk_mkdirAllFrom perm p fs fs1 [] rfl h
  rw [List.nil_append] at this
  exact (walk_ok_iff_isDir _ _).1 this

/-- In a directory without entries no name resolves. -/
theorem stat_child_of_no_children (fs : FS) (d : PathName) (x : String)
    (hd : isDir fs d = true) (hc : children fs d = []) :
    stat fs (d ++ [x]) = .error .ENOENT := by
  have hw := (walk_ok_iff_isDir _ _).2 hd
  have hn : nodeAt fs (d ++ [x]) = none := by
    cases hn : nodeAt fs (d ++ [x]) with
    | none => rfl
    | some n =>
      exfalso
      have hl : lookupNode fs (d ++ [x]) = some n := by
        cases hdx : d ++ [x] with
        | nil => simp at hdx
        | cons a l =>
          rw [hdx] at hn
          exact hn
      have hm := lookupNode_mem fs _ n hl
      have : d ++ [x] ∈ children fs d :=
        (mem_children fs d _).2 ⟨n, hm, by simp, by simp⟩
      rw [hc] at this
      exact absurd this (List.not_mem_nil _)
  unfold stat
  rw [List.dropLast_concat, hw]
  simp only [hn]

namespace Fortuner

theorem isDir_of_ensureDir (d : PathName) (s s0 : Proc) (h : ensureDir d s = .cont s0) :
    isDir s0.fs d = true := by
  unfold ensureDir at h
  cases hst : stat s.fs d with
  | error e =>
    cases e <;> simp only [hst] at h
    · cases hm : mkdir s.fs d 0o755 with
      | error e2 => simp [hm] at h
      | ok fs1 =>
        simp only [hm, Run.cont.injEq] at h
        subst h
        exact (isDir_iff _ _).2 ⟨_, stat_mkdir_self _ _ _ _ hm⟩
    all_goals exact absurd h (by simp)
  | ok x =>
    cases x with
    | file c => simp [hst] at h
    | dir m =>
      simp only [hst, Run.cont.injEq] at h
      subst h
      exact (isDir_iff _ _).2 ⟨m, hst⟩

end Fortuner

namespace Calr

theorem isDir_after_ensureDir (s s0 : Proc) (h : ensureDir s = .cont s0)
    (hf : isFile s.fs OUTDIR = false) : isDir s0.fs OUTDIR = true := by
  unfold ensureDir at h
  cases hst : stat s.fs OUTDIR with
  | error e =>
    cases e <;> simp only [hst] at h
    · cases hm : mkdirAll s.fs OUTDIR 0o755 with
      | error e2 => simp [hm] at h
      | ok fs1 =>
        simp only [hm, Run.cont.injEq] at h
        subst h
        exact isDir_mkdirAll _ _ _ _ hm
    all_goals exact absurd h (by simp)
  | ok x =>
    simp only [hst, Run.cont.injEq] at h
    subst h
    cases x with
    | file c => simp [isFile, hst] at hf
    | dir m => exact (isDir_iff _ _).2 ⟨m, hst⟩

end Calr

/-- C4, counterexample: calr with `tests/expected` a regular file. The
directory reset completes without a fatal exit and control reaches the first
plan entry, but the output path is still a regular file, not a directory. -/
theorem calr_reset_leaves_regular_file :
    Calr.resetDir { fs := fsOutIsFile } = .cont { fs := fsOutIsFile } ∧
      isDir fsOutIsFile Calr.OUTDIR = false ∧
      contentOf fsOutIsFile Calr.OUTDIR = some [9] := by
  refine ⟨by decide, by decide, by rfl⟩

/-- C4, amended: whenever the directory reset of fortuner completes without a
fatal exit, and whenever the directory reset of calr completes without a fatal
exit from a state where the output path is not a regular file, the output
directory is a directory, it has no immediate entry, and no name resolves
inside it. -/
theorem reset_leaves_empty_directory :
    (∀ (wd : PathName) (s s1 : Proc),
        Fortuner.resetDir (wd ++ ["tests", "expected"]) s = .cont s1 →
        isDir s1.fs (wd ++ ["tests", "expected"]) = true ∧
        children s1.fs (wd ++ ["tests", "expected"]) = [] ∧
        ∀ x, stat s1.fs (wd ++ ["tests", "expected"] ++ [x]) = .error .ENOENT) ∧
      (∀ s s1 : Proc, Calr.resetDir s = .cont s1 → isFile s.fs Calr.OUTDIR = false →
        isDir s1.fs Calr.OUTDIR = true ∧ children s1.fs Calr.OUTDIR = [] ∧
        ∀ x, stat s1.fs (Calr.OUTDIR ++ [x]) = .error .ENOENT) := by
  constructor
  · intro wd s s1 h
    unfold Fortuner.resetDir at h
    cases he : Fortuner.ensureDir (wd ++ ["tests", "expected"]) s with
    | halt c s0 => simp [he, Run.andThen] at h
    | cont s0 =>
      simp only [he, Run.andThen] at h
      obtain ⟨s2, h2, hd, hc, _⟩ :=
        clearDir_of_isDir _ s0 (Fortuner.isDir_of_ensureDir _ s s0 he)
      rw [h2] at h
      injection h with h
      subst h
      exact ⟨hd, hc, fun x => stat_child_of_no_children _ _ x hd hc⟩
  · intro s s1 h hf
    unfold Calr.resetDir at h
    cases he : Calr.ensureDir s with
    | halt c s0 => simp [he, Run.andThen] at h
    | cont s0 =>
      simp only [he, Run.andThen] at h
      obtain ⟨s2, h2, hd, hc, _⟩ :=
        clearDir_of_isDir _ s0 (Calr.isDir_after_ensureDir s s0 he hf)
      rw [h2] at h
      injection h with h
      subst h
      exact ⟨hd, hc, fun x => stat_child_of_no_children _ _ x hd hc⟩

/-- Witness for `reset_leaves_empty_directory`: both programs on a directory
with stale results, a dot-file and a non-empty subdirectory. -/
theorem reset_leaves_empty_directory_witness :
    (isDir (Fortuner.resetDir ([] ++ ["tests", "expected"]) { fs := fsStale }).proc.fs
          ([] ++ ["tests", "expected"]) = true ∧
        children (Fortuner.resetDir ([] ++ ["tests", "expected"]) { fs := fsStale }).proc.fs
          ([] ++ ["tests", "expected"]) = [] ∧
        ∀ x, stat (Fortuner.resetDir ([] ++ ["tests", "expected"]) { fs := fsStale }).proc.fs
          ([] ++ ["tests", "expected"] ++ [x]) = .error .ENOENT) ∧
      (isDir (Calr.resetDir { fs := fsStale }).proc.fs Calr.OUTDIR = true ∧
        children (Calr.resetDir { fs := fsStale }).proc.fs Calr.OUTDIR = [] ∧
        ∀ x, stat (Calr.resetDir { fs := fsStale }).proc.fs (Calr.OUTDIR ++ [x])
          = .error .ENOENT) :=
  ⟨reset_leaves_empty_directory.1 [] { fs := fsStale } _ (by rfl),
   reset_leaves_empty_directory.2 { fs := fsStale } _ (by rfl) (by decide)⟩

/-! ## Files of the entries through a whole run -/

theorem ofCommand_iff (k : PathName) (e : Event) :
    e.ofCommand k = true ↔ e = .start k ∨ e = .startFailed k ∨ ∃ c, e = .exited k c := by
  cases e <;> simp [Event.ofCommand, eq_comm]

theorem ofCommand_of_isSetup (k : PathName) (e : Event) (h : e.isSetup = true) :
    e.ofCommand k = false := by
  cases e <;> simp [Event.isSetup, Event.ofCommand] at h ⊢

theorem isSetup_not_cleanup (e : Event) (h : e.isSetup = true) (p : PathName) :
    e ≠ .spawn p ∧ e ≠ .remove p ∧ e ≠ .wgAdd := by
  cases e <;> simp [Event.isSetup] at h ⊢

/-- The clearing phase only removes: the trace grows by reset events, counter
and goroutines stay. -/
theorem clearDir_fresh (d : PathName) (s : Proc) (h : Fresh s) :
    ∃ s1, clearDir d s = .cont s1 ∧ Fresh s1 := by
  cases hd : isDir s.fs d with
  | false => exact ⟨s, clearDir_of_not_isDir d s hd, h⟩
  | true =>
    obtain ⟨s1, h1, _, _, _, hwg, hpk, htr⟩ := clearDir_of_isDir d s hd
    refine ⟨s1, h1, ?_, by rw [hwg]; exact h.2.1, by rw [hpk]; exact h.2.2⟩
    intro e he
    rw [htr, List.mem_append] at he
    rcases he with he | he
    · exact h.1 e he
    · obtain ⟨p, _, rfl⟩ := List.mem_map.1 he
      rfl

theorem fresh_log_setup (s : Proc) (fs1 : FS) (e : Event) (h : Fresh s)
    (he : e.isSetup = true) : Fresh ({ s with fs := fs1 }.log [e]) := by
  refine ⟨?_, h.2.1, h.2.2⟩
  intro x hx
  simp only [Proc.log, List.mem_append, List.mem_singleton] at hx
  rcases hx with hx | rfl
  · exact h.1 x hx
  · exact he

namespace Fortuner

theorem entryKey_inj (d : PathName) (n m : String) : entryKey d n = entryKey d m ↔ n = m := by
  simp [entryKey]

theorem resetDir_fresh (d : PathName) (s : Proc) (h : Fresh s) :
    Fresh (resetDir d s).proc := by
  unfold resetDir ensureDir
  cases hst : stat s.fs d with
  | error e =>
    cases e
    · cases hm : mkdir s.fs d 0o755 with
      | error e2 => exact fresh_log_setup s s.fs _ h rfl
      | ok fs1 =>
        obtain ⟨s1, h1, hf⟩ := clearDir_fresh d _ (fresh_log_setup s fs1 (.mkdir d) h rfl)
        simp only [Run.andThen, h1]
        exact hf
    all_goals exact fresh_log_setup s s.fs _ h rfl
  | ok x =>
    cases x with
    | file c => exact fresh_log_setup s s.fs _ h rfl
    | dir m =>
      obtain ⟨s1, h1, hf⟩ := clearDir_fresh d s h
      simp only [Run.andThen, h1]
      exact hf

theorem kept_of_fresh (d : PathName) (s : Proc) (h : Fresh s) : Kept d s := by
  intro n e he hc
  rw [ofCommand_of_isSetup _ e (h.1 e he)] at hc
  exact absurd hc (by decide)

theorem noCleanup_of_fresh (s : Proc) (h : Fresh s) : NoCleanup s :=
  ⟨fun e he p => isSetup_not_cleanup e (h.1 e he) p, h.2.1, h.2.2⟩

/-- Extending a run: files only appear, and the new command events belong to
an entry whose files are there. -/
theorem kept_extend (d : PathName) (n : String) (s : Proc) (fs1 : FS) (l : List Event)
    (hk : Kept d s) (hmono : ∀ q, isFile s.fs q = true → isFile fs1 q = true)
    (hkey : ∀ e ∈ l, ∀ k, e.ofCommand k = true → k = entryKey d n)
    (hnew : (∃ e ∈ l, e.ofCommand (entryKey d n) = true) →
      isFile fs1 (outPath d n) = true ∧ isFile fs1 (errPath d n) = true) :
    Kept d { s with fs := fs1, trace := s.trace ++ l } := by
  intro m e he hc
  simp only [List.mem_append] at he
  rcases he with he | he
  · exact ⟨hmono _ (hk m e he hc).1, hmono _ (hk m e he hc).2⟩
  · have hm := (entryKey_inj d m n).1 (hkey e he _ hc)
    subst hm
    exact hnew ⟨e, he, hc⟩

theorem noCleanup_extend (s : Proc) (fs1 : FS) (l : List Event) (h : NoCleanup s)
    (hl : ∀ e ∈ l, ∀ p, e ≠ .spawn p ∧ e ≠ .remove p ∧ e ≠ .wgAdd) :
    NoCleanup { s with fs := fs1, trace := s.trace ++ l } := by
  refine ⟨?_, h.2.1, h.2.2⟩
  intro e he p
  simp only [List.mem_append] at he
  rcases he with he | he
  · exact h.1 e he p
  · exact hl e he p

/-- One call of `makeOutFile` keeps the invariant, however it ends. -/
theorem makeOutFile_kept (exec : Exec) (d : PathName) (n : String) (args : List String)
    (s : Proc) (hk : Kept d s) : Kept d (makeOutFile exec d n args s).proc := by
  cases h1 : create s.fs (outPath d n) with
  | error e =>
    rw [makeOutFile_create_out_fails exec d n args s e h1]
    refine kept_extend d n s s.fs [.logFatal] hk (fun _ h => h) ?_ ?_
    · intro e he k hc
      simp only [List.mem_singleton] at he
      subst he
      simp [Event.ofCommand] at hc
    · rintro ⟨e, he, hc⟩
      simp only [List.mem_singleton] at he
      subst he
      simp [Event.ofCommand] at hc
  | ok fs1 =>
    have m1 : ∀ q, isFile s.fs q = true → isFile fs1 q = true :=
      fun q hq => isFile_create _ _ _ q h1 hq
    cases h2 : create fs1 (errPath d n) with
    | error e =>
      rw [makeOutFile_create_err_fails exec d n args s fs1 e h1 h2]
      refine kept_extend d n s fs1 _ hk m1 ?_ ?_
      · intro e he k hc
        rw [ofCommand_iff] at hc
        rcases hc with rfl | rfl | ⟨c, rfl⟩ <;> simp at he
      · rintro ⟨e, he, hc⟩
        rw [ofCommand_iff] at hc
        rcases hc with rfl | rfl | ⟨c, rfl⟩ <;> simp at he
    | ok fs2 =>
      have m2 : ∀ q, isFile fs1 q = true → isFile fs2 q = true :=
        fun q hq => isFile_create _ _ _ q h2 hq
      have f2 : isFile fs2 (outPath d n) = true ∧ isFile fs2 (errPath d n) = true :=
        ⟨m2 _ (isFile_create_self _ _ _ h1), isFile_create_self _ _ _ h2⟩
      cases hx : exec "fortune" args with
      | startError =>
        rw [makeOutFile_start_fails exec d n args s fs1 fs2 h1 h2 hx]
        refine kept_extend d n s fs2 _ hk (fun q hq => m2 q (m1 q hq)) ?_ (fun _ => f2)
        intro e he k hc
        rw [ofCommand_iff] at hc
        rcases hc with rfl | rfl | ⟨c, rfl⟩ <;> simp at he <;> simp [he]
      | exited code out err =>
        rw [makeOutFile_exited exec d n args s fs1 fs2 code out err h1 h2 hx]
        have m3 : ∀ q, isFile fs2 q = true →
            isFile (writeFile (writeFile fs2 (outPath d n) out) (errPath d n) err) q = true :=
          fun q hq => isFile_writeFile _ _ q _ (isFile_writeFile _ _ q _ hq)
        simp only [Run.proc, List.append_assoc]
        refine kept_extend d n s _ _ hk (fun q hq => m3 q (m2 q (m1 q hq))) ?_
          (fun _ => ⟨m3 _ f2.1, m3 _ f2.2⟩)
        intro e he k hc
        rw [ofCommand_iff] at hc
        by_cases h0 : code = 0
        · rcases hc with rfl | rfl | ⟨c, rfl⟩ <;> simp [h0] at he <;> simp [he]
        · rcases hc with rfl | rfl | ⟨c, rfl⟩ <;> simp [h0] at he <;> simp [he]

theorem makeOutFile_noCleanup (exec : Exec) (d : PathName) (n : String)
    (args : List String) (s : Proc) (hk : NoCleanup s) :
    NoCleanup (makeOutFile exec d n args s).proc := by
  cases h1 : create s.fs (outPath d n) with
  | error e =>
    rw [makeOutFile_create_out_fails exec d n args s e h1]
    exact noCleanup_extend s s.fs [.logFatal] hk (by simp)
  | ok fs1 =>
    cases h2 : create fs1 (errPath d n) with
    | error e =>
      rw [makeOutFile_create_err_fails exec d n args s fs1 e h1 h2]
      exact noCleanup_extend s fs1 _ hk (by simp)
    | ok fs2 =>
      cases hx : exec "fortune" args with
      | startError =>
        rw [makeOutFile_start_fails exec d n args s fs1 fs2 h1 h2 hx]
        exact noCleanup_extend s fs2 _ hk (by simp)
      | exited code out err =>
        rw [makeOutFile_exited exec d n args s fs1 fs2 code out err h1 h2 hx]
        simp only [Run.proc, List.append_assoc]
        refine noCleanup_extend s _ _ hk ?_
        by_cases h0 : code = 0 <;> simp [h0]

theorem runPlan_kept (exec : Exec) (d : PathName) (plan : List (String × List String))
    (s : Proc) (hk : Kept d s) (hn : NoCleanup s) :
    Kept d (runPlan exec d plan s).proc ∧ NoCleanup (runPlan exec d plan s).proc := by
  induction plan generalizing s with
  | nil => exact ⟨hk, hn⟩
  | cons e rest ih =>
    have k1 := makeOutFile_kept exec d e.1 e.2 s hk
    have n1 := makeOutFile_noCleanup exec d e.1 e.2 s hn
    unfold runPlan
    cases hm : makeOutFile exec d e.1 e.2 s with
    | halt c s1 =>
      rw [hm] at k1 n1
      exact ⟨k1, n1⟩
    | cont s1 =>
      rw [hm] at k1 n1
      exact ih s1 k1 n1

/-- At the end of any run of fortuner, every entry whose command was started
has both its files, and no cleanup was ever set up. -/
theorem main_kept (exec : Exec) (wd : PathName) (fs0 : FS) :
    Kept (wd ++ ["tests", "expected"]) (main exec (.ok wd) { fs := fs0 }).proc ∧
      NoCleanup (main exec (.ok wd) { fs := fs0 }).proc := by
  have hf : Fresh ({ fs := fs0 } : Proc) := ⟨by simp, rfl, rfl⟩
  have hr := resetDir_fresh (wd ++ ["tests", "expected"]) _ hf
  simp only [main]
  cases hres : resetDir (wd ++ ["tests", "expected"]) { fs := fs0 } with
  | halt c s1 =>
    rw [hres] at hr
    exact ⟨kept_of_fresh _ _ hr, noCleanup_of_fresh _ hr⟩
  | cont s1 =>
    rw [hres] at hr
    exact runPlan_kept exec _ _ s1 (kept_of_fresh _ _ hr) (noCleanup_of_fresh _ hr)

end Fortuner

namespace Calr

theorem reset_fresh (s : Proc) (h : Fresh s) : Fresh (resetDir s).proc := by
  unfold resetDir ensureDir
  cases hst : stat s.fs OUTDIR with
  | error e =>
    cases e
    · cases hm : mkdirAll s.fs OUTDIR 0o755 with
      | error e2 => exact fresh_log_setup s s.fs _ h rfl
      | ok fs1 =>
        obtain ⟨s1, h1, hf⟩ :=
          clearDir_fresh OUTDIR _ (fresh_log_setup s fs1 (.mkdir OUTDIR) h rfl)
        simp only [Run.andThen, h1]
        exact hf
    all_goals exact fresh_log_setup s s.fs _ h rfl
  | ok x =>
    obtain ⟨s1, h1, hf⟩ := clearDir_fresh OUTDIR s h
    simp only [Run.andThen, h1]
    exact hf

theorem running_of_fresh (s : Proc) (h : Fresh s) : Running s := by
  refine ⟨?_, ?_, h.2.2, h.2.1⟩
  · intro p e he hc
    rw [ofCommand_of_isSetup _ e (h.1 e he)] at hc
    exact absurd hc (by decide)
  · intro p hp
    exact (isSetup_not_cleanup _ (h.1 _ hp) p).1 rfl

theorem settled_of_running (s : Proc) (h : Running s) : Settled s :=
  ⟨h.1, fun p _ => ⟨h.2.1 p, by rw [h.2.2.1]; exact List.not_mem_nil _⟩⟩

theorem kept_grow (p : PathName) (s : Proc) (fs1 : FS) (l : List Event)
    (hk : Kept s) (hmono : ∀ q, isFile s.fs q = true → isFile fs1 q = true)
    (hkey : ∀ e ∈ l, ∀ k, e.ofCommand k = true → k = p)
    (hnew : (∃ e ∈ l, e.ofCommand p = true) → isFile fs1 p = true) (w : Nat)
    (pk : List PathName) :
    Kept { fs := fs1, trace := s.trace ++ l, wg := w, parked := pk } := by
  intro q e he hc
  simp only [List.mem_append] at he
  rcases he with he | he
  · exact hmono _ (hk q e he hc)
  · have hq := hkey e he _ hc
    subst hq
    exact hnew ⟨e, he, hc⟩

/-- A fatal exit that only logs keeps everything as it was. -/
theorem settled_log_fatal (s : Proc) (h : Running s) : Settled (s.log [.logFatal]) := by
  refine ⟨?_, ?_⟩
  · refine kept_grow [] s s.fs [.logFatal] h.1 (fun _ hq => hq) ?_ ?_ s.wg s.parked
    · intro e he k hc
      simp only [List.mem_singleton] at he
      subst he
      simp [Event.ofCommand] at hc
    · rintro ⟨e, he, hc⟩
      simp only [List.mem_singleton] at he
      subst he
      simp [Event.ofCommand] at hc
  · intro p _
    simp only [Proc.log, List.mem_append, List.mem_singleton, not_or]
    exact ⟨⟨h.2.1 p, by simp⟩, by rw [h.2.2.1]; exact List.not_mem_nil _⟩

/-- One call of `run_ccal`: when it returns the run is as before with one more
file; when it ends the process, no cleanup concerns a command that exited
with status zero. -/
theorem run_ccal_invariant (exec : Exec) (p : PathName) (args : List String) (s : Proc)
    (h : Running s) :
    (∀ s1, run_ccal exec p args s = .cont s1 → Running s1) ∧
      Settled (run_ccal exec p args s).proc := by
  cases hst : stat s.fs p with
  | ok x =>
    rw [run_ccal_exists exec p args s x hst]
    exact ⟨fun s1 h1 => absurd h1 (by simp), settled_log_fatal s h⟩
  | error e =>
    by_cases he : e = .ENOENT
    · subst he
      cases h1 : create s.fs p with
      | error e2 =>
        rw [run_ccal_create_fails exec p args s e2 hst h1]
        exact ⟨fun s1 h1 => absurd h1 (by simp), settled_log_fatal s h⟩
      | ok fs1 =>
        have m1 : ∀ q, isFile s.fs q = true → isFile fs1 q = true :=
          fun q hq => isFile_create _ _ _ q h1 hq
        have f1 : isFile fs1 p = true := isFile_create_self _ _ _ h1
        have hnotfile : isFile s.fs p = false := by simp [isFile, hst]
        have hold : ∀ c, Event.exited p c ∉ s.trace := by
          intro c hc
          have := h.1 p _ hc (by simp [Event.ofCommand])
          rw [hnotfile] at this
          exact absurd this (by decide)
        cases hx : exec "ccal" args with
        | startError =>
          rw [run_ccal_start_fails exec p args s fs1 hst h1 hx]
          refine ⟨fun s1 h1 => absurd h1 (by simp), ?_, ?_⟩
          · refine kept_grow p s fs1 _ h.1 m1 ?_ (fun _ => f1) _ _
            intro e he k hc
            rw [ofCommand_iff] at hc
            rcases hc with rfl | rfl | ⟨c, rfl⟩ <;> simp at he <;> simp [he]
          · intro q hq
            simp only [Run.proc, List.mem_append] at hq
            rcases hq with hq | hq
            · have hqp : q ≠ p := fun hh => hold 0 (hh ▸ hq)
              simp only [Run.proc, List.mem_append, not_or, h.2.2.1]
              exact ⟨⟨h.2.1 q, by simp [hqp]⟩, by simp [hqp]⟩
            · simp at hq
        | exited code out err =>
          cases code with
          | zero =>
            rw [run_ccal_success exec p args s fs1 out err hst h1 hx]
            have hk : Kept { s with fs := writeFile fs1 p out,
                                    trace := s.trace ++ [.create p, .println p, .start p,
                                      .exited p 0, .close p, .signal p] } := by
              refine kept_grow p s _ _ h.1
                (fun q hq => isFile_writeFile _ _ q _ (m1 q hq)) ?_
                (fun _ => isFile_writeFile _ _ p _ f1) _ _
              intro e he k hc
              rw [ofCommand_iff] at hc
              rcases hc with rfl | rfl | ⟨c, rfl⟩ <;> simp at he <;> simp [he]
            have hr : Running { s with fs := writeFile fs1 p out,
                                       trace := s.trace ++ [.create p, .println p, .start p,
                                         .exited p 0, .close p, .signal p] } := by
              refine ⟨hk, ?_, h.2.2.1, h.2.2.2⟩
              intro q hq
              simp only [List.mem_append] at hq
              rcases hq with hq | hq
              · exact h.2.1 q hq
              · simp at hq
            refine ⟨?_, settled_of_running _ hr⟩
            intro s1 hs1
            injection hs1 with hs1
            subst hs1
            exact hr
          | succ k =>
            rw [run_ccal_exit_nonzero exec p args s fs1 k out err hst h1 hx]
            refine ⟨fun s1 h1 => absurd h1 (by simp), ?_, ?_⟩
            · refine kept_grow p s _ _ h.1
                (fun q hq => isFile_writeFile _ _ q _ (m1 q hq)) ?_
                (fun _ => isFile_writeFile _ _ p _ f1) _ _
              intro e he k hc
              rw [ofCommand_iff] at hc
              rcases hc with rfl | rfl | ⟨c, rfl⟩ <;> simp at he <;> simp [he]
            · intro q hq
              simp only [Run.proc, List.mem_append] at hq
              rcases hq with hq | hq
              · have hqp : q ≠ p := fun hh => hold 0 (hh ▸ hq)
                simp only [Run.proc, List.mem_append, not_or, h.2.2.1]
                exact ⟨⟨h.2.1 q, by simp [hqp]⟩, by simp [hqp]⟩
              · simp at hq
    · rw [run_ccal_stat_fails exec p args s e hst he]
      exact ⟨fun s1 h1 => absurd h1 (by simp), settled_log_fatal s h⟩

theorem runPlan_invariant (exec : Exec) (plan : List (PathName × List String)) (s : Proc)
    (h : Running s) :
    (∀ s1, runPlan exec plan s = .cont s1 → Running s1) ∧
      Settled (runPlan exec plan s).proc := by
  induction plan generalizing s with
  | nil =>
    refine ⟨?_, settled_of_running s h⟩
    intro s1 hs1
    simp only [runPlan, Run.cont.injEq] at hs1
    subst hs1
    exact h
  | cons e rest ih =>
    obtain ⟨hc, hs⟩ := run_ccal_invariant exec e.1 e.2 s h
    unfold runPlan
    cases hm : run_ccal exec e.1 e.2 s with
    | halt c s1 =>
      rw [hm] at hs
      exact ⟨fun s2 h2 => absurd h2 (by simp [Run.andThen]), hs⟩
    | cont s1 => exact ih s1 (hc s1 hm)

/-- At the end of any run of calr, every entry whose command was started has
its file, and no cleanup concerns a command that exited with status zero. -/
theorem main_settled (exec : Exec) (fs0 : FS) : Settled (main exec { fs := fs0 }).proc := by
  have hf : Fresh ({ fs := fs0 } : Proc) := ⟨by simp, rfl, rfl⟩
  have hr := reset_fresh _ hf
  simp only [main]
  cases hres : resetDir { fs := fs0 } with
  | halt c s1 =>
    rw [hres] at hr
    exact settled_of_running _ (running_of_fresh _ hr)
  | cont s1 =>
    rw [hres] at hr
    obtain ⟨hc, hs⟩ := runPlan_invariant exec plan s1 (running_of_fresh _ hr)
    simp only [Run.andThen]
    cases hp : runPlan exec plan s1 with
    | halt c s2 =>
      rw [hp] at hs
      exact hs
    | cont s2 =>
      have hrun := hc s2 hp
      simp only [waitGroup, hrun.2.2.2, if_true]
      exact settled_of_running _ hrun

end Calr

/-! ## Output files at the end of a run -/

/-- C1, counterexample: in fortuner the command of the entry `berra_cap` exits
with status 1, and when the process has ended both `berra_cap.out` and
`berra_cap.err` exist in the output directory; the same holds when the
command cannot be started. -/
theorem fortuner_failed_entry_files_remain :
    Event.exited ["tests", "expected", "berra_cap"] 1
        ∈ (Fortuner.main execExitOne (.ok []) { fs := fsEmptyDir }).proc.trace ∧
      isFile (Fortuner.main execExitOne (.ok []) { fs := fsEmptyDir }).proc.fs
        ["tests", "expected", "berra_cap.out"] = true ∧
      isFile (Fortuner.main execExitOne (.ok []) { fs := fsEmptyDir }).proc.fs
        ["tests", "expected", "berra_cap.err"] = true ∧
      Event.startFailed ["tests", "expected", "berra_cap"]
        ∈ (Fortuner.main execNoStart (.ok []) { fs := fsEmptyDir }).proc.trace ∧
      isFile (Fortuner.main execNoStart (.ok []) { fs := fsEmptyDir }).proc.fs
        ["tests", "expected", "berra_cap.out"] = true ∧
      isFile (Fortuner.main execNoStart (.ok []) { fs := fsEmptyDir }).proc.fs
        ["tests", "expected", "berra_cap.err"] = true := by
  refine ⟨by decide, by decide, by decide, by decide, by decide, by decide⟩

/-- C1, amended: in fortuner, for every run and every plan entry whose command
fails to start or exits non-zero, the files `<name>.out` and `<name>.err`
of that entry exist in the output directory when the process has ended:
`makeOutFile` sets up no cleanup (no goroutine, no removal, counter zero). -/
theorem fortuner_failed_entry_keeps_files (exec : Exec) (wd : PathName) (fs0 : FS)
    (n : String)
    (h : Event.startFailed (Fortuner.entryKey (wd ++ ["tests", "expected"]) n)
          ∈ (Fortuner.main exec (.ok wd) { fs := fs0 }).proc.trace ∨
        ∃ c, Event.exited (Fortuner.entryKey (wd ++ ["tests", "expected"]) n) (c + 1)
          ∈ (Fortuner.main exec (.ok wd) { fs := fs0 }).proc.trace) :
    isFile (Fortuner.main exec (.ok wd) { fs := fs0 }).proc.fs
        (Fortuner.outPath (wd ++ ["tests", "expected"]) n) = true ∧
      isFile (Fortuner.main exec (.ok wd) { fs := fs0 }).proc.fs
        (Fortuner.errPath (wd ++ ["tests", "expected"]) n) = true ∧
      (∀ p, Event.spawn p ∉ (Fortuner.main exec (.ok wd) { fs := fs0 }).proc.trace ∧
        Event.remove p ∉ (Fortuner.main exec (.ok wd) { fs := fs0 }).proc.trace) ∧
      (Fortuner.main exec (.ok wd) { fs := fs0 }).proc.wg = 0 := by
  obtain ⟨hk, hn⟩ := Fortuner.main_kept exec wd fs0
  have hfiles : isFile (Fortuner.main exec (.ok wd) { fs := fs0 }).proc.fs
        (Fortuner.outPath (wd ++ ["tests", "expected"]) n) = true ∧
      isFile (Fortuner.main exec (.ok wd) { fs := fs0 }).proc.fs
        (Fortuner.errPath (wd ++ ["tests", "expected"]) n) = true := by
    rcases h with h | ⟨c, h⟩
    · exact hk n _ h (by simp [Event.ofCommand])
    · exact hk n _ h (by simp [Event.ofCommand])
  refine ⟨hfiles.1, hfiles.2, ?_, hn.2.1⟩
  intro p
  exact ⟨fun hp => (hn.1 _ hp p).1 rfl, fun hp => (hn.1 _ hp p).2.1 rfl⟩

/-- Witness for `fortuner_failed_entry_keeps_files`: the entry `twain_cap`
when every command but the first exits with status 1. -/
theorem fortuner_failed_entry_keeps_files_witness :
    isFile (Fortuner.main execFirstOnly (.ok []) { fs := fsStale }).proc.fs
        (Fortuner.outPath ([] ++ ["tests", "expected"]) "twain_cap") = true ∧
      isFile (Fortuner.main execFirstOnly (.ok []) { fs := fsStale }).proc.fs
        (Fortuner.errPath ([] ++ ["tests", "expected"]) "twain_cap") = true ∧
      (∀ p, Event.spawn p ∉ (Fortuner.main execFirstOnly (.ok []) { fs := fsStale }).proc.trace ∧
        Event.remove p ∉ (Fortuner.main execFirstOnly (.ok []) { fs := fsStale }).proc.trace) ∧
      (Fortuner.main execFirstOnly (.ok []) { fs := fsStale }).proc.wg = 0 :=
  fortuner_failed_entry_keeps_files execFirstOnly [] fsStale "twain_cap"
    (Or.inr ⟨0, by decide⟩)

/-- C7: in both programs, for every run and every plan entry whose command
exited with status zero, the output file(s) of the entry exist in the output
directory when the process has ended and no cleanup was set up for it,
whatever the other commands did. -/
theorem successful_entry_keeps_files (exec : Exec) :
    (∀ (fs0 : FS) (p : PathName),
        Event.exited p 0 ∈ (Calr.main exec { fs := fs0 }).proc.trace →
        isFile (Calr.main exec { fs := fs0 }).proc.fs p = true ∧
        Event.spawn p ∉ (Calr.main exec { fs := fs0 }).proc.trace ∧
        p ∉ (Calr.main exec { fs := fs0 }).proc.parked) ∧
      (∀ (wd : PathName) (fs0 : FS) (n : String),
        Event.exited (Fortuner.entryKey (wd ++ ["tests", "expected"]) n) 0
          ∈ (Fortuner.main exec (.ok wd) { fs := fs0 }).proc.trace →
        isFile (Fortuner.main exec (.ok wd) { fs := fs0 }).proc.fs
          (Fortuner.outPath (wd ++ ["tests", "expected"]) n) = true ∧
        isFile (Fortuner.main exec (.ok wd) { fs := fs0 }).proc.fs
          (Fortuner.errPath (wd ++ ["tests", "expected"]) n) = true ∧
        (∀ p, Event.spawn p ∉ (Fortuner.main exec (.ok wd) { fs := fs0 }).proc.trace) ∧
        (Fortuner.main exec (.ok wd) { fs := fs0 }).proc.parked = []) := by
  constructor
  · intro fs0 p h
    obtain ⟨hk, hs⟩ := Calr.main_settled exec fs0
    exact ⟨hk p _ h (by simp [Event.ofCommand]), (hs p h).1, (hs p h).2⟩
  · intro wd fs0 n h
    obtain ⟨hk, hn⟩ := Fortuner.main_kept exec wd fs0
    have hf := hk n _ h (by simp [Event.ofCommand])
    exact ⟨hf.1, hf.2, fun p hp => (hn.1 _ hp p).1 rfl, hn.2.2⟩

/-- Witness for `successful_entry_keeps_files`: the first entry succeeds and
the second fails, in calr (which then exits) and in fortuner (which goes on). -/
theorem successful_entry_keeps_files_witness :
    (isFile (Calr.main execFirstOnly { fs := fsStale }).proc.fs
          ["tests", "expected", "2020.txt"] = true ∧
        Event.spawn ["tests", "expected", "2020.txt"]
          ∉ (Calr.main execFirstOnly { fs := fsStale }).proc.trace ∧
        ["tests", "expected", "2020.txt"]
          ∉ (Calr.main execFirstOnly { fs := fsStale }).proc.parked) ∧
      (isFile (Fortuner.main execFirstOnly (.ok []) { fs := fsStale }).proc.fs
          (Fortuner.outPath ([] ++ ["tests", "expected"]) "berra_cap") = true ∧
        isFile (Fortuner.main execFirstOnly (.ok []) { fs := fsStale }).proc.fs
          (Fortuner.errPath ([] ++ ["tests", "expected"]) "berra_cap") = true ∧
        (∀ p, Event.spawn p
          ∉ (Fortuner.main execFirstOnly (.ok []) { fs := fsStale }).proc.trace) ∧
        (Fortuner.main execFirstOnly (.ok []) { fs := fsStale }).proc.parked = []) :=
  ⟨(successful_entry_keeps_files execFirstOnly).1 fsStale ["tests", "expected", "2020.txt"]
      (by decide),
   (successful_entry_keeps_files execFirstOnly).2 [] fsStale "berra_cap" (by decide)⟩

end FixtureGen
